import Mathlib

/-!
Verification of the NBLog non-blocking event log
(`media/libnbaio/NBLog.cpp` of `android_frameworks_av`).

The development shallowly embeds the writer (frame emission into the FIFO),
the entry iterator, the reader's snapshot trimming, the author-tagging copy
used by the merger, the timestamp-ordered merge, and the hash rendering of
the formatter.  Bytes are modelled as `Nat` values (all writer-emitted bytes
are < 256); the FIFO is modelled as the list of bytes written to it, in
order; pointers into a snapshot buffer are modelled as `Int` offsets from
the buffer start, so that out-of-range pointer arithmetic (e.g. a backward
step landing before `front`) is representable exactly as in the source.
-/

namespace NBLog

/-- Modelled from the spec: `NBLog.h` (not under `src/`) defines the closed
set of event tags in this order (§3 of the spec): RESERVED, STRING,
TIMESTAMP, INTEGER, FLOAT, PID, AUTHOR, START_FMT, HASH, END_FMT,
HISTOGRAM_ENTRY_TS, HISTOGRAM_FLUSH, UPPER_BOUND.  Tags are small integers
assigned in the listed order, with RESERVED the invalid sentinel and
UPPER_BOUND the exclusive upper sentinel. -/
def EVENT_RESERVED : Nat := 0

def EVENT_STRING : Nat := 1

def EVENT_TIMESTAMP : Nat := 2

def EVENT_INTEGER : Nat := 3

def EVENT_FLOAT : Nat := 4

def EVENT_PID : Nat := 5

def EVENT_AUTHOR : Nat := 6

def EVENT_START_FMT : Nat := 7

def EVENT_HASH : Nat := 8

def EVENT_END_FMT : Nat := 9

def EVENT_HISTOGRAM_ENTRY_TS : Nat := 10

def EVENT_HISTOGRAM_FLUSH : Nat := 11

def EVENT_UPPER_BOUND : Nat := 12

/-- Modelled from the spec: `Entry::kMaxLength` (§3: payload length is at
most 255 bytes; the length field is one byte). -/
def kMaxLength : Nat := 255

/-- Modelled from the spec: `Entry::kOverhead` is 3 (type byte, leading
length byte, trailing length byte; §3 frame layout). -/
def kOverhead : Nat := 3

/-- Modelled from the spec: `Entry::kPreviousLengthOffset` is -1: from a
frame boundary `p`, the previous frame's trailing length byte sits at
`p - 1` (§4.3 of the spec). -/
def kPreviousLengthOffset : Int := -1

/-- Modelled from the spec: `sizeof(struct timespec)` — a two-field
`(seconds, nanoseconds)` monotonic time, 8 bytes per field on LP64. -/
def sizeofTimespec : Nat := 16

/-- Modelled from the spec: `sizeof(log_hash_t)` — the 8-byte opaque
identifier of a format call site. -/
def sizeofLogHash : Nat := 8

/-- Modelled from the spec: `sizeof(int)` — author indices travel as a
machine int, 4 bytes. -/
def sizeofInt : Nat := 4

/-- Modelled from the spec: `sizeof(HistTsEntry)` — a packed
`(hash, timestamp)` pair. -/
def sizeofHistTsEntry : Nat := sizeofLogHash + sizeofTimespec

/-- Modelled from the spec: `sizeof(HistTsEntryWithAuthor)` — a packed
`(hash, timestamp, author)` triple. -/
def sizeofHistTsEntryWithAuthor : Nat := sizeofHistTsEntry + sizeofInt

/-- Little-endian four-byte image of a value, as stored for a machine
`int` or `float` payload. -/
def le32 (n : Nat) : List Nat :=
  [n % 256, n / 256 % 256, n / 65536 % 256, n / 16777216 % 256]

/-- Little-endian eight-byte image of a 64-bit value (`log_hash_t`). -/
def le64 (n : Nat) : List Nat := le32 (n % 4294967296) ++ le32 (n / 4294967296)

/-- Value of a little-endian byte list (each byte taken mod 256). -/
def decLe (bs : List Nat) : Nat := bs.foldr (fun b acc => b % 256 + 256 * acc) 0

/-- Reading a 4-byte little-endian payload back as a signed machine `int`
(two's complement), as `EntryIterator::payload<int>` does. -/
def decodeInt32 (bs : List Nat) : Int :=
  let v := decLe bs
  if v < 2147483648 then (v : Int) else (v : Int) - 4294967296

/-- Little-endian image of a machine `int` value (two's complement). -/
def intLE32 (i : Int) : List Nat := le32 (i % (4294967296 : Int)).toNat

/-- `strlen` on a C string modelled as its byte list: the number of bytes
before the first NUL.  Strings without interior NUL have `cstrlen = length`. -/
def cstrlen (s : List Nat) : Nat := (s.takeWhile (fun b => b ≠ 0)).length

/-- A decoded frame: an event type byte and a payload.  The wire image is
`type, len, payload, len` with `len = payload.length` (§3 frame layout). -/
structure Frame where
  type : Nat
  payload : List Nat
deriving DecidableEq, Repr

/-- Wire image of one frame: type byte, leading length byte, payload bytes,
trailing length byte. -/
def encodeFrame (f : Frame) : List Nat :=
  f.type :: f.payload.length :: (f.payload ++ [f.payload.length])

/-- Wire image of a sequence of frames laid out contiguously. -/
def encodeFrames (fs : List Frame) : List Nat := (fs.map encodeFrame).flatten

/-- `NBLog::Entry` as constructed by the writer: an event tag, a data
pointer (modelled by the pointed-to byte list; NULL is the empty list,
only ever paired with `mLength = 0` by `logEnd`), and a length. -/
structure CEntry where
  mEvent : Nat
  mData : List Nat
  mLength : Nat

/-- `NBLog::Entry::readAt`: byte `offset` of the frame image
(type, leading length, data bytes, trailing length, then zeros). -/
def CEntry.readAt (e : CEntry) (offset : Nat) : Nat :=
  if offset = 0 then e.mEvent
  else if offset = 1 then e.mLength
  else if offset < e.mLength + 2 then e.mData.getD (offset - 2) 0
  else if offset = e.mLength + 2 then e.mLength
  else 0

/-- `NBLog::Writer` state: the enable flag, the bytes written to the backing
FIFO so far (in order), and the cached `(pid, name)` blob `mPidTag` (whose
length is `mPidTagSize`). -/
structure Writer where
  mEnabled : Bool
  mFifo : List Nat
  mPidTag : List Nat

/-- `NBLog::Writer::log(const Entry *entry, true /*trusted*/)`: assemble the
`mLength + kOverhead` bytes of the frame via `readAt` into a stack buffer
and commit them to the FIFO with a single write. -/
def Writer.logTrusted (w : Writer) (e : CEntry) : Writer :=
  if !w.mEnabled then w
  else { w with mFifo := w.mFifo ++ (List.range (e.mLength + kOverhead)).map e.readAt }

/-- `NBLog::Writer::log(Event event, const void *data, size_t length)`:
drop silently when disabled, when the data pointer is NULL (`none`), when
the length exceeds `kMaxLength`, or when the event tag is `EVENT_RESERVED`
or at least `EVENT_UPPER_BOUND`; otherwise commit the frame as trusted. -/
def Writer.logEv (w : Writer) (event : Nat) (data : Option (List Nat)) (length : Nat) : Writer :=
  if !w.mEnabled then w
  else
    match data with
    | none => w
    | some d =>
      if kMaxLength < length then w
      else if event = EVENT_RESERVED ∨ EVENT_UPPER_BOUND ≤ event then w
      else w.logTrusted ⟨event, d, length⟩

/-- `NBLog::Writer::log(const char *string)`.  The argument models a
`const char *`: `none` is the NULL pointer, `some s` points at the bytes of
`s` followed by a NUL.  When enabled and the pointer is NULL the source runs
`LOG_ALWAYS_FATAL_IF(string == NULL, ...)`, which aborts the process; the
abort is modelled by the `none` result.  Otherwise the string is truncated
to `kMaxLength` and logged as an `EVENT_STRING` frame. -/
def Writer.logCString (w : Writer) (s : Option (List Nat)) : Option Writer :=
  if !w.mEnabled then some w
  else
    match s with
    | none => none
    | some str =>
      let length := min (cstrlen str) kMaxLength
      some (w.logEv EVENT_STRING (some str) length)

/-- `NBLog::Writer::logTimestamp(const struct timespec &ts)`: the timestamp
argument is modelled by its `sizeofTimespec` raw bytes. -/
def Writer.logTimestampAt (w : Writer) (tsB : List Nat) : Writer :=
  if !w.mEnabled then w
  else w.logEv EVENT_TIMESTAMP (some tsB) sizeofTimespec

/-- `NBLog::Writer::logTimestamp()`: reads the monotonic clock; on failure
(`none`) the frame is silently dropped, on success (`some tsB`) the raw
timestamp bytes are logged. -/
def Writer.logTimestampClock (w : Writer) (clk : Option (List Nat)) : Writer :=
  if !w.mEnabled then w
  else
    match clk with
    | none => w
    | some tsB => w.logEv EVENT_TIMESTAMP (some tsB) sizeofTimespec

/-- `NBLog::Writer::logInteger(const int x)`. -/
def Writer.logInteger (w : Writer) (x : Int) : Writer :=
  if !w.mEnabled then w
  else w.logEv EVENT_INTEGER (some (intLE32 x)) sizeofInt

/-- `NBLog::Writer::logFloat(const float x)`: the float is modelled by its
32-bit representation, an opaque four-byte image. -/
def Writer.logFloat (w : Writer) (bits : Nat) : Writer :=
  if !w.mEnabled then w
  else w.logEv EVENT_FLOAT (some (le32 bits)) sizeofInt

/-- `NBLog::Writer::logPID()`: logs the cached `(pid, name)` blob. -/
def Writer.logPID (w : Writer) : Writer :=
  if !w.mEnabled then w
  else w.logEv EVENT_PID (some w.mPidTag) w.mPidTag.length

/-- `NBLog::Writer::logStart(const char *fmt)`: the format string truncated
to `kMaxLength`, logged as `EVENT_START_FMT`. -/
def Writer.logStart (w : Writer) (fmt : List Nat) : Writer :=
  if !w.mEnabled then w
  else w.logEv EVENT_START_FMT (some fmt) (min (cstrlen fmt) kMaxLength)

/-- `NBLog::Writer::logEnd()`: a zero-length `EVENT_END_FMT` frame, written
through the trusted path (`Entry(EVENT_END_FMT, NULL, 0)`). -/
def Writer.logEnd (w : Writer) : Writer :=
  if !w.mEnabled then w
  else w.logTrusted ⟨EVENT_END_FMT, [], 0⟩

/-- `NBLog::Writer::logHash(log_hash_t hash)`: the 8 raw bytes of the hash. -/
def Writer.logHash (w : Writer) (hash : Nat) : Writer :=
  if !w.mEnabled then w
  else w.logEv EVENT_HASH (some (le64 hash)) sizeofLogHash

/-- A vararg as pulled by `va_arg` in `logVFormat`: a `char *` (possibly
NULL), a `struct timespec` (its raw bytes), an `int`, or a
double-demoted-to-float (its 32-bit representation). -/
inductive VArg where
  | vs : Option (List Nat) → VArg
  | vt : List Nat → VArg
  | vd : Int → VArg
  | vf : Nat → VArg
deriving DecidableEq, Repr

/-- The format-walking loop of `NBLog::Writer::logVFormat`: scan `fmt` up to
its NUL terminator; a `%` dispatches on the next character (`s`, `t`, `d`,
`f` pull one vararg and log one frame, `p` logs the pid blob, `%%` and an
unknown specifier log nothing, `%` directly before the terminator ends the
scan).  A NULL `%s` argument aborts (the `none` of `logCString` propagates).
`va_arg` with a mismatched argument kind is undefined behaviour in the
source; it is modelled as consuming the argument without logging. -/
def scanFormat : Writer → List Nat → List VArg → Option Writer
  | w, [], _ => some w
  | w, c :: rest, args =>
    if c = 0 then some w
    else if c ≠ 37 then scanFormat w rest args
    else
      match rest with
      | [] => some w
      | c2 :: rest2 =>
        if c2 = 115 then
          match args with
          | VArg.vs s :: args2 =>
            match w.logCString s with
            | none => none
            | some w2 => scanFormat w2 rest2 args2
          | _ => scanFormat w rest2 args.tail
        else if c2 = 116 then
          match args with
          | VArg.vt tsB :: args2 => scanFormat (w.logTimestampAt tsB) rest2 args2
          | _ => scanFormat w rest2 args.tail
        else if c2 = 100 then
          match args with
          | VArg.vd i :: args2 => scanFormat (w.logInteger i) rest2 args2
          | _ => scanFormat w rest2 args.tail
        else if c2 = 102 then
          match args with
          | VArg.vf b :: args2 => scanFormat (w.logFloat b) rest2 args2
          | _ => scanFormat w rest2 args.tail
        else if c2 = 112 then
          scanFormat w.logPID rest2 args
        else if c2 = 0 then
          some w
        else
          scanFormat w rest2 args

/-- `NBLog::Writer::logVFormat(fmt, hash, ap)`: `logStart(fmt)`, then
`logTimestamp()` from the monotonic clock (`clk`), then `logHash(hash)`,
then the format-walking loop over `fmt`, then `logEnd()`. -/
def Writer.logVFormat (w : Writer) (fmt : List Nat) (hash : Nat)
    (clk : Option (List Nat)) (args : List VArg) : Option Writer :=
  if !w.mEnabled then some w
  else
    (scanFormat (((w.logStart fmt).logTimestampClock clk).logHash hash) fmt args).map
      Writer.logEnd

/-- Modelled from the spec (well-typedness of a `log_format` call, the
hypothesis of C1): the vararg list supplies, for each `%` specifier of
`fmt` in order, an argument of the matching kind — a non-null string for
`%s`, a `timespec` (16 raw bytes) for `%t`, an `int` for `%d`, a float for
`%f`; `%p`, `%%`, `%` at the terminator and unknown specifiers consume no
argument. -/
def argsMatch : List Nat → List VArg → Bool
  | [], _ => true
  | c :: rest, args =>
    if c = 0 then true
    else if c ≠ 37 then argsMatch rest args
    else
      match rest with
      | [] => true
      | c2 :: rest2 =>
        if c2 = 115 then
          match args with
          | VArg.vs (some _) :: args2 => argsMatch rest2 args2
          | _ => false
        else if c2 = 116 then
          match args with
          | VArg.vt tsB :: args2 => tsB.length == sizeofTimespec && argsMatch rest2 args2
          | _ => false
        else if c2 = 100 then
          match args with
          | VArg.vd _ :: args2 => argsMatch rest2 args2
          | _ => false
        else if c2 = 102 then
          match args with
          | VArg.vf _ :: args2 => argsMatch rest2 args2
          | _ => false
        else argsMatch rest2 args

/-- Modelled from the spec (the refinement statement of C1): the bytes the
spec says the argument walk of `log_format` emits — one frame per `%`
specifier of `fmt` in order (`%s` a STRING frame holding the argument
truncated to `kMaxLength`, `%t` a TIMESTAMP frame, `%d` an INTEGER frame,
`%f` a FLOAT frame, `%p` a PID frame holding the writer's cached pid blob;
`%%`, `%` at the terminator and unknown specifiers emit no frame). -/
def specArgBytes (pidTag : List Nat) : List Nat → List VArg → List Nat
  | [], _ => []
  | c :: rest, args =>
    if c = 0 then []
    else if c ≠ 37 then specArgBytes pidTag rest args
    else
      match rest with
      | [] => []
      | c2 :: rest2 =>
        if c2 = 115 then
          match args with
          | VArg.vs (some str) :: args2 =>
            encodeFrame ⟨EVENT_STRING, str.take (min (cstrlen str) kMaxLength)⟩ ++
              specArgBytes pidTag rest2 args2
          | _ => specArgBytes pidTag rest2 args.tail
        else if c2 = 116 then
          match args with
          | VArg.vt tsB :: args2 =>
            encodeFrame ⟨EVENT_TIMESTAMP, tsB⟩ ++ specArgBytes pidTag rest2 args2
          | _ => specArgBytes pidTag rest2 args.tail
        else if c2 = 100 then
          match args with
          | VArg.vd i :: args2 =>
            encodeFrame ⟨EVENT_INTEGER, intLE32 i⟩ ++ specArgBytes pidTag rest2 args2
          | _ => specArgBytes pidTag rest2 args.tail
        else if c2 = 102 then
          match args with
          | VArg.vf b :: args2 =>
            encodeFrame ⟨EVENT_FLOAT, le32 b⟩ ++ specArgBytes pidTag rest2 args2
          | _ => specArgBytes pidTag rest2 args.tail
        else if c2 = 112 then
          encodeFrame ⟨EVENT_PID, pidTag⟩ ++ specArgBytes pidTag rest2 args
        else if c2 = 0 then []
        else specArgBytes pidTag rest2 args

/-- Byte of a snapshot buffer at a pointer offset (reading before the
buffer or past its end yields 0; such reads only occur in the source on
violating inputs that the scan rejects). -/
def byteAt (buf : List Nat) (i : Int) : Nat :=
  if 0 ≤ i then buf.getD i.toNat 0 else 0

/-- `NBLog::EntryIterator::operator++`: advance by the leading length byte
plus `kOverhead`. -/
def iterNext (buf : List Nat) (p : Int) : Int := p + byteAt buf (p + 1) + kOverhead

/-- `NBLog::EntryIterator::operator--`: step back by the previous frame's
trailing length byte (at `p + kPreviousLengthOffset`) plus `kOverhead`. -/
def iterPrev (buf : List Nat) (p : Int) : Int :=
  p - (byteAt buf (p + kPreviousLengthOffset) + kOverhead)

/-- `NBLog::EntryIterator::hasConsistentLength`: the leading length byte
equals the trailing length byte of the same frame. -/
def hasConsistentLength (buf : List Nat) (p : Int) : Bool :=
  byteAt buf (p + 1) = byteAt buf (p + (byteAt buf (p + 1) + kOverhead : Nat) + kPreviousLengthOffset)

/-- `NBLog::EntryIterator::copyTo`: the `leading length + kOverhead` bytes
of the frame starting at `p`. -/
def entryAt (buf : List Nat) (p : Int) : List Nat :=
  (buf.drop p.toNat).take (byteAt buf (p + 1) + kOverhead)

/-- Modelled from the spec: `EntryIterator::payload<T>` (declared in
`NBLog.h`, not under `src/`) reinterprets the payload bytes, which start
`sizeof(entry) = 2` bytes into the frame, as a `T`; modelled as the raw
byte window of `sizeof(T)` bytes. -/
def payloadBytes (buf : List Nat) (p : Int) (n : Nat) : List Nat :=
  (buf.drop (p + 2).toNat).take n

/-- `NBLog::Reader::startingTypes`: `{START_FMT, HISTOGRAM_ENTRY_TS}`. -/
def startingTypesL : List Nat := [EVENT_START_FMT, EVENT_HISTOGRAM_ENTRY_TS]

/-- `NBLog::Reader::endingTypes`:
`{END_FMT, HISTOGRAM_ENTRY_TS, HISTOGRAM_FLUSH}`. -/
def endingTypesL : List Nat := [EVENT_END_FMT, EVENT_HISTOGRAM_ENTRY_TS, EVENT_HISTOGRAM_FLUSH]

/-- `NBLog::Reader::findLastEntryOfTypes(front, back, types)`: scan
backwards from `back`; each step computes
`prev = back - back[kPreviousLengthOffset] - kOverhead` and aborts with
`none` when `prev` lies before `front` or when
`prev + prev[length] + kOverhead != back`; otherwise `prev` is returned if
its type byte is in `types`, else the scan continues from `prev`. -/
def findLastEntryOfTypes (buf : List Nat) (front : Int) (types : List Nat) (back : Int) :
    Option Int :=
  if back + kPreviousLengthOffset < front then none
  else
    let prev : Int := back - byteAt buf (back + kPreviousLengthOffset) - kOverhead
    if prev < front then none
    else if prev + byteAt buf (prev + 1) + kOverhead ≠ back then none
    else if byteAt buf prev ∈ types then some prev
    else findLastEntryOfTypes buf front types prev
termination_by (back - front).toNat
decreasing_by
  simp only [kPreviousLengthOffset, kOverhead] at *
  omega

/-- The positions visited by consistent backward iteration from `back`
towards `front`: the maximal chain of backward steps each of which passes
the two consistency checks of `findLastEntryOfTypes`. -/
def backChain (buf : List Nat) (front : Int) (back : Int) : List Int :=
  if back + kPreviousLengthOffset < front then []
  else
    let prev : Int := back - byteAt buf (back + kPreviousLengthOffset) - kOverhead
    if prev < front then []
    else if prev + byteAt buf (prev + 1) + kOverhead ≠ back then []
    else prev :: backChain buf front prev
termination_by (back - front).toNat
decreasing_by
  simp only [kPreviousLengthOffset, kOverhead] at *
  omega

/-- The head-trimming loop of `NBLog::Reader::getSnapshot`: repeatedly call
`findLastEntryOfTypes(front, cur, startingTypes)` and remember the last
non-null result; returns the earliest starting-type frame found, or `none`.
The `if` guard only serves termination: whenever `findLastEntryOfTypes`
returns `some s` the bounds `front ≤ s` and `s + kOverhead ≤ cur` hold, so
the guard is always true on reachable states. -/
def firstStartLoop (buf : List Nat) (front : Int) (cur : Int) : Option Int :=
  match findLastEntryOfTypes buf front startingTypesL cur with
  | none => none
  | some s =>
    if h : front ≤ s ∧ s < cur ∧ front ≤ cur then
      match firstStartLoop buf front s with
      | none => some s
      | some s2 => some s2
    else some s
termination_by (cur - front).toNat
decreasing_by omega

/-- The corruption-trimming step of `NBLog::Reader::getSnapshot`, acting on
the copied snapshot bytes `buf` (`front = 0`, `back = buf.length`): locate
the last ending-type frame (else the snapshot is empty at front), set `end`
just past it, then locate the earliest reachable starting-type frame for
`begin` (else `begin = end`).  Returns `(begin, end)` as offsets. -/
def snapshotTrim (buf : List Nat) : Int × Int :=
  match findLastEntryOfTypes buf 0 endingTypesL buf.length with
  | none => (0, 0)
  | some lastEnd =>
    let e := iterNext buf lastEnd
    match firstStartLoop buf 0 e with
    | none => (e, e)
    | some firstStart => (firstStart, e)

/-- `NBLog::FormatEntry::author`: skip the start-fmt, timestamp and hash
frames; if the fourth frame is an `EVENT_AUTHOR` frame return its `int`
payload, else -1. -/
def FormatEntry.author (buf : List Nat) (p : Int) : Int :=
  let it := iterNext buf (iterNext buf (iterNext buf p))
  if byteAt buf it = EVENT_AUTHOR then decodeInt32 (payloadBytes buf it sizeofInt)
  else -1

/-- `NBLog::HistogramEntry::author`: if the frame's payload length equals
`sizeof(HistTsEntryWithAuthor)` return the trailing `author` field of the
payload (the `int` after the hash and timestamp), else -1. -/
def HistogramEntry.author (buf : List Nat) (p : Int) : Int :=
  if byteAt buf (p + 1) = sizeofHistTsEntryWithAuthor then
    decodeInt32 ((payloadBytes buf p sizeofHistTsEntryWithAuthor).drop sizeofHistTsEntry)
  else -1

/-- The copy loop of `NBLog::FormatEntry::copyWithAuthor`: repeatedly
advance the iterator and copy the frame it lands on, until (and including)
the first `EVENT_END_FMT` frame; returns the written bytes and the iterator
just past the end frame.  `fuel` bounds the loop (the caller passes
`buf.length`, enough for any record laid out inside `buf`). -/
def copyRest (buf : List Nat) : Nat → Int → List Nat → List Nat × Int
  | 0, it, dst => (dst, it)
  | fuel + 1, it, dst =>
    let it2 := iterNext buf it
    if byteAt buf it2 ≠ EVENT_END_FMT then copyRest buf fuel it2 (dst ++ entryAt buf it2)
    else (dst ++ entryAt buf it2, iterNext buf it2)

/-- `NBLog::FormatEntry::copyWithAuthor(dst, author)`: copy the start-fmt,
timestamp and hash frames, write a synthesized `EVENT_AUTHOR` frame whose
payload is the 4-byte author index, then copy every remaining frame up to
and including `EVENT_END_FMT`; returns the bytes appended to `dst` and the
iterator past the copied record. -/
def FormatEntry.copyWithAuthor (buf : List Nat) (p : Int) (author : Nat) (dst : List Nat) :
    List Nat × Int :=
  let dst1 := dst ++ entryAt buf p
  let p1 := iterNext buf p
  let dst2 := dst1 ++ entryAt buf p1
  let p2 := iterNext buf p1
  let dst3 := dst2 ++ entryAt buf p2
  let authorEntry := EVENT_AUTHOR :: sizeofInt :: (le32 author ++ [sizeofInt])
  copyRest buf buf.length p2 (dst3 ++ authorEntry)

/-- `NBLog::HistogramEntry::copyWithAuthor(dst, author)`: copy the type
byte, length byte and `sizeof(HistTsEntry)` payload bytes, append the
4-byte author index, overwrite the leading length byte with
`sizeof(HistTsEntryWithAuthor)` and append it again as the trailing length
byte; the whole `kOverhead + sizeof(HistTsEntryWithAuthor)`-byte buffer is
written to `dst`, and the iterator past the source frame is returned. -/
def HistogramEntry.copyWithAuthor (buf : List Nat) (p : Int) (author : Nat) (dst : List Nat) :
    List Nat × Int :=
  let head := (buf.drop p.toNat).take (2 + sizeofHistTsEntry)
  let buffer := (head ++ le32 author ++ [sizeofHistTsEntryWithAuthor]).set 1
    sizeofHistTsEntryWithAuthor
  (dst ++ buffer, iterNext buf p)

/-- An uppercase hexadecimal digit, as printed by the `%X` conversion. -/
def hexDigitU (n : Nat) : Char :=
  if n < 10 then Char.ofNat (48 + n) else Char.ofNat (55 + n % 16)

/-- `%.4X` on a value at most 0xFFFF: exactly four uppercase hex digits. -/
def hex4 (n : Nat) : String :=
  String.mk [hexDigitU (n / 4096 % 16), hexDigitU (n / 256 % 16),
             hexDigitU (n / 16 % 16), hexDigitU (n % 16)]

/-- The hash field of `NBLog::Reader::handleFormat`:
`body->appendFormat("%.4X-%d ", (int)(hash >> 16) & 0xFFFF, (int)hash & 0xFFFF)`.
The `(int)` casts truncate to 32 bits; `& 0xFFFF` masks to 16 bits. -/
def handleFormatHashText (hash : Nat) : String :=
  hex4 ((hash >>> 16) % 4294967296 &&& 65535) ++ "-" ++
    toString ((hash % 4294967296) &&& 65535) ++ " "

/-- `struct timespec` as compared by the merger. -/
structure Timespec where
  sec : Int
  nsec : Int
deriving DecidableEq, Repr

/-- `operator>(const struct timespec &, const struct timespec &)` from the
merge machinery. -/
def timespecGt (t1 t2 : Timespec) : Bool :=
  t1.sec > t2.sec || (t1.sec == t2.sec && t1.nsec > t2.nsec)

/-- `operator>(const struct MergeItem &, const struct MergeItem &)`: order
by timestamp, breaking exact timestamp ties by stream index. -/
def mergeItemGt (i1 i2 : Timespec × Nat) : Bool :=
  timespecGt i1.1 i2.1 ||
    (i1.1.sec == i2.1.sec && i1.1.nsec == i2.1.nsec && i1.2 > i2.2)

/-- Top of the merge priority queue (`std::priority_queue` with
`std::greater<MergeItem>`): the minimum item, i.e. the unique element that
no other element is smaller than under `mergeItemGt`. -/
def heapTop (items : List (Timespec × Nat)) : Option (Timespec × Nat) :=
  items.foldl
    (fun best c =>
      match best with
      | none => some c
      | some b => if mergeItemGt b c then some c else some b)
    none

/-- The items held by the merge priority queue at any point of the loop:
one `(timestamp, index)` per stream whose snapshot is not exhausted, built
from the record its offset iterator currently points at. -/
def currentItems (streams : List (List Timespec)) : List (Timespec × Nat) :=
  streams.enum.filterMap fun si => si.2.head?.map fun ts => (ts, si.1)

/-- The loop of `NBLog::Merger::merge`: pop the minimum `(timestamp, index)`
item, copy that stream's current record to the merged FIFO (tagged with its
stream index), advance that stream's offset, and re-push its next record if
any.  Records are abstracted to the timestamps the heap compares; `fuel`
bounds the loop (one record is consumed per iteration, so the total record
count suffices). -/
def mergeAux : Nat → List (List Timespec) → List (Timespec × Nat)
  | 0, _ => []
  | fuel + 1, streams =>
    match heapTop (currentItems streams) with
    | none => []
    | some (ts, i) => (ts, i) :: mergeAux fuel (streams.set i (streams.getD i []).tail)

/-- `NBLog::Merger::merge`: merge the snapshots of the registered readers
into the single timestamp-ordered sequence of `(timestamp, author)` records
written to the merged FIFO. -/
def Merger.merge (streams : List (List Timespec)) : List (Timespec × Nat) :=
  mergeAux (streams.map List.length).sum streams

/-! ### Helper lemmas: frame images -/

lemma le32_length (n : Nat) : (le32 n).length = 4 := rfl

lemma intLE32_length (i : Int) : (intLE32 i).length = 4 := rfl

lemma le64_length (n : Nat) : (le64 n).length = 8 := rfl

lemma cstrlen_le_length (s : List Nat) : cstrlen s ≤ s.length :=
  (List.takeWhile_sublist _).length_le

lemma cstrlen_of_no_nul (s : List Nat) (h : 0 ∉ s) : cstrlen s = s.length := by
  unfold cstrlen
  rw [List.takeWhile_eq_self_iff.2]
  intro a ha
  simp only [ne_eq, decide_eq_true_eq]
  exact fun hz => h (hz ▸ ha)

lemma encodeFrame_length (f : Frame) : (encodeFrame f).length = f.payload.length + kOverhead := by
  simp [encodeFrame, kOverhead]

lemma map_range_getD (d : List Nat) (L : Nat) (h : L ≤ d.length) :
    (List.range L).map (fun i => d.getD i 0) = d.take L := by
  induction L with
  | zero => simp
  | succ n ih =>
    rw [List.range_succ, List.map_append, ih (by omega), List.take_succ]
    simp [List.getD_eq_getElem?_getD, List.getElem?_eq_getElem (show n < d.length by omega)]

lemma readAt_zero (ev : Nat) (d : List Nat) (L : Nat) :
    CEntry.readAt ⟨ev, d, L⟩ 0 = ev := rfl

lemma readAt_one (ev : Nat) (d : List Nat) (L : Nat) :
    CEntry.readAt ⟨ev, d, L⟩ 1 = L := rfl

lemma readAt_mid (ev : Nat) (d : List Nat) (L i : Nat) (h : i < L) :
    CEntry.readAt ⟨ev, d, L⟩ (i + 2) = d.getD i 0 := by
  unfold CEntry.readAt
  dsimp only
  rw [if_neg (by omega), if_neg (by omega), if_pos (by omega)]
  simp

lemma readAt_last (ev : Nat) (d : List Nat) (L : Nat) :
    CEntry.readAt ⟨ev, d, L⟩ (L + 2) = L := by
  unfold CEntry.readAt
  dsimp only
  rw [if_neg (by omega), if_neg (by omega), if_neg (by omega), if_pos rfl]

lemma logTrusted_bytes (ev : Nat) (d : List Nat) (L : Nat) (h : L ≤ d.length) :
    (List.range (L + kOverhead)).map (CEntry.readAt ⟨ev, d, L⟩) =
      encodeFrame ⟨ev, d.take L⟩ := by
  have h3 : L + kOverhead = (L + 2) + 1 := by simp [kOverhead]
  rw [h3, List.range_succ, List.map_append]
  have h2 : L + 2 = (L + 1) + 1 := by omega
  rw [h2, List.range_succ_eq_map]
  have h1 : L + 1 = L + 1 := rfl
  rw [show L + 1 = Nat.succ L from rfl, List.range_succ_eq_map]
  simp only [List.map_cons, List.map_map]
  have hmid : (List.range L).map (CEntry.readAt ⟨ev, d, L⟩ ∘ (fun i => i + 1) ∘ (fun i => i + 1)) =
      (List.range L).map (fun i => d.getD i 0) := by
    apply List.map_congr_left
    intro i hi
    have : i < L := List.mem_range.1 hi
    simpa [Function.comp] using readAt_mid ev d L i this
  rw [hmid, map_range_getD d L h]
  have hlast : CEntry.readAt ⟨ev, d, L⟩ (L + 1 + 1) = L := by
    have := readAt_last ev d L
    simpa [Nat.add_assoc] using this
  simp [readAt_zero, readAt_one, hlast, encodeFrame, List.length_take, min_eq_left h,
    Function.comp]

lemma logTrusted_emit (w : Writer) (hw : w.mEnabled = true) (ev : Nat) (d : List Nat) (L : Nat)
    (h : L ≤ d.length) :
    w.logTrusted ⟨ev, d, L⟩ = { w with mFifo := w.mFifo ++ encodeFrame ⟨ev, d.take L⟩ } := by
  simp [Writer.logTrusted, hw, logTrusted_bytes ev d L h]

lemma logEv_emit (w : Writer) (hw : w.mEnabled = true) (ev : Nat) (d : List Nat) (L : Nat)
    (hL : L ≤ kMaxLength) (hd : L ≤ d.length) (h0 : ev ≠ EVENT_RESERVED)
    (hub : ev < EVENT_UPPER_BOUND) :
    w.logEv ev (some d) L = { w with mFifo := w.mFifo ++ encodeFrame ⟨ev, d.take L⟩ } := by
  have hlt := logTrusted_emit w hw ev d L hd
  unfold Writer.logEv
  rw [hw]
  simp only [Bool.not_true, Bool.false_eq_true, if_false]
  rw [if_neg (by omega), if_neg (by omega), hlt, hw]

/-! ### Helper lemmas: reading bytes of a laid-out buffer -/

lemma byteAt_append (pre rest : List Nat) (k : Nat) :
    byteAt (pre ++ rest) ((pre.length : Int) + (k : Int)) = rest.getD k 0 := by
  have h0 : (0 : Int) ≤ (pre.length : Int) + (k : Int) := by positivity
  rw [byteAt, if_pos h0]
  have ht : ((pre.length : Int) + (k : Int)).toNat = pre.length + k := by omega
  rw [ht]
  simp only [List.getD_eq_getElem?_getD]
  rw [List.getElem?_append_right (by omega)]
  simp

lemma byteAt_ofNat (buf : List Nat) (k : Nat) : byteAt buf (k : Int) = buf.getD k 0 := by
  rw [byteAt, if_pos (by positivity)]
  simp

/-! ### C6: every committed frame is `tag, L, payload, L` with consistent lengths -/

/-- C6.  For every frame the Writer commits to the FIFO (event tag, payload
of length `L ≤ kMaxLength`), the emitted bytes are the tag, `L`, the `L`
payload bytes, then `L` again; hence the leading length byte equals the
trailing length byte and `hasConsistentLength` holds at the frame's start. -/
theorem C6_frame_commit (w : Writer) (e : CEntry) (hen : w.mEnabled = true)
    (hL : e.mLength ≤ kMaxLength) (hd : e.mData.length = e.mLength) :
    (w.logTrusted e).mFifo =
      w.mFifo ++ (e.mEvent :: e.mLength :: (e.mData ++ [e.mLength])) ∧
    hasConsistentLength (w.logTrusted e).mFifo (w.mFifo.length : Int) = true := by
  obtain ⟨ev, d, L⟩ := e
  simp only at hL hd ⊢
  have hbytes : (w.logTrusted ⟨ev, d, L⟩).mFifo = w.mFifo ++ (ev :: L :: (d ++ [L])) := by
    rw [logTrusted_emit w hen ev d L (le_of_eq hd.symm)]
    simp [encodeFrame, List.take_of_length_le (le_of_eq hd)]
    simp [hd]
  refine ⟨hbytes, ?_⟩
  rw [hbytes]
  unfold hasConsistentLength
  have h1 : byteAt (w.mFifo ++ (ev :: L :: (d ++ [L]))) ((w.mFifo.length : Int) + 1) = L := by
    have := byteAt_append w.mFifo (ev :: L :: (d ++ [L])) 1
    simpa using this
  rw [h1]
  have hidx : ((w.mFifo.length : Int) + ((L + kOverhead : Nat) : Int) + kPreviousLengthOffset) =
      ((w.mFifo.length : Int) + ((L + 2 : Nat) : Int)) := by
    simp only [kOverhead, kPreviousLengthOffset]
    push_cast
    ring
  rw [hidx, byteAt_append w.mFifo (ev :: L :: (d ++ [L])) (L + 2)]
  have h2 : (ev :: L :: (d ++ [L])).getD (L + 2) 0 = L := by
    show (L :: (d ++ [L])).getD (L + 1) 0 = L
    show (d ++ [L]).getD L 0 = L
    simp only [List.getD_eq_getElem?_getD]
    rw [List.getElem?_append_right (by omega), hd]
    simp
  rw [h2]
  simp

/-! ### C8: invalid frames drop silently, but a NULL string is fatal -/

/-- C8 counterexample.  The claim states that on an enabled Writer a
`log(string)` call with a NULL string pointer is a non-fatal no-op.  In the
source, `Writer::log(const char *)` runs
`LOG_ALWAYS_FATAL_IF(string == NULL, "Attempted to log NULL string")` when
enabled, which aborts the process; the abort is modelled by the `none`
result of `logCString`.  At the concrete enabled writer below, the call is
fatal, refuting the claim. -/
theorem C8_counterexample :
    Writer.logCString ⟨true, [], []⟩ none = none ∧
      ∀ w2 : Writer, Writer.logCString ⟨true, [], []⟩ none ≠ some w2 := by
  constructor
  · rfl
  · intro w2 h
    simp [Writer.logCString] at h

/-- C8 (amended).  Every call of `log(Event, data, length)` whose event tag
equals `RESERVED` or is at least `UPPER_BOUND`, or whose payload pointer is
NULL, or whose payload length exceeds `kMaxLength`, writes no bytes to the
FIFO and returns silently (this path is non-fatal by construction); the
`log(const char *)` entry point with a NULL string pointer on an enabled
writer is however fatal, not a silent no-op. -/
theorem C8_invalid_drops (w : Writer) (ev : Nat) (data : Option (List Nat)) (len : Nat)
    (h : ev = EVENT_RESERVED ∨ EVENT_UPPER_BOUND ≤ ev ∨ data = none ∨ kMaxLength < len) :
    w.logEv ev data len = w := by
  unfold Writer.logEv
  cases hE : w.mEnabled with
  | false => simp
  | true =>
    simp only [Bool.not_true, Bool.false_eq_true, if_false]
    cases data with
    | none => rfl
    | some d =>
      dsimp only
      by_cases hlen : kMaxLength < len
      · rw [if_pos hlen]
      · rw [if_neg hlen]
        rcases h with h | h | h | h
        · rw [if_pos (Or.inl h)]
        · rw [if_pos (Or.inr h)]
        · exact absurd h (by simp)
        · exact absurd h hlen

/-- C8 witness: the amended theorem applied at a concrete enabled writer
and each of the three rejection conditions. -/
theorem C8_witness :
    (Writer.logEv ⟨true, [], []⟩ EVENT_RESERVED (some [1]) 1 = ⟨true, [], []⟩) ∧
    (Writer.logEv ⟨true, [], []⟩ EVENT_STRING none 0 = ⟨true, [], []⟩) ∧
    (Writer.logEv ⟨true, [], []⟩ EVENT_STRING (some [1]) 256 = ⟨true, [], []⟩) :=
  ⟨C8_invalid_drops _ _ _ _ (Or.inl rfl),
   C8_invalid_drops _ _ _ _ (Or.inr (Or.inr (Or.inl rfl))),
   C8_invalid_drops _ _ _ _ (Or.inr (Or.inr (Or.inr (by norm_num [kMaxLength]))))⟩

/-! ### C9: hash rendering in `handleFormat` -/

/-- C9 counterexample.  The claim states the hash field renders as
`XXXX-NNNN` with `XXXX` the upper 16 bits of `(hash >> 16)` in hex and in
particular that hash `0xDEADBEEFCAFEBABE` renders as `DEAD-51390`.  The
source prints `"%.4X-%d "` of `(int)(hash >> 16) & 0xFFFF` (bits 16..31)
and `(int)hash & 0xFFFF` (bits 0..15), so this hash renders as
`CAFE-47806`, not `DEAD-51390`. -/
theorem C9_counterexample :
    handleFormatHashText 0xDEADBEEFCAFEBABE = "CAFE-47806 " ∧
    handleFormatHashText 0xDEADBEEFCAFEBABE ≠ "DEAD-51390 " := by
  constructor
  · decide
  · decide

/-- C9 (amended).  The formatter renders the 64-bit hash field as
`XXXX-NNNN ` where `XXXX` is bits 16..31 of the hash (that is, the low 16
bits of `hash >> 16`) printed as four uppercase hex digits and `NNNN` is
the low 16 bits of the hash printed in decimal; the record produced for
hash `0xDEADBEEFCAFEBABE` therefore renders its hash field as
`CAFE-47806`. -/
theorem C9_hash_field (hash : Nat) :
    handleFormatHashText hash =
      hex4 (hash / 65536 % 65536) ++ "-" ++ toString (hash % 65536) ++ " " := by
  unfold handleFormatHashText
  have e16 : (65535 : Nat) = 2 ^ 16 - 1 := by norm_num
  have h1 : (hash >>> 16) % 4294967296 &&& 65535 = hash / 65536 % 65536 := by
    rw [e16, Nat.and_pow_two_sub_one_eq_mod, Nat.shiftRight_eq_div_pow]
    norm_num
  have h2 : (hash % 4294967296) &&& 65535 = hash % 65536 := by
    rw [e16, Nat.and_pow_two_sub_one_eq_mod]
    norm_num
  rw [h1, h2]

/-- C6 witness: a concrete enabled writer committing a one-byte
`EVENT_STRING` frame. -/
theorem C6_witness :
    ((Writer.mk true [] []).logTrusted ⟨1, [65], 1⟩).mFifo =
      (Writer.mk true [] []).mFifo ++ (1 :: 1 :: ([65] ++ [1])) ∧
    hasConsistentLength ((Writer.mk true [] []).logTrusted ⟨1, [65], 1⟩).mFifo
      ((Writer.mk true [] []).mFifo.length : Int) = true :=
  C6_frame_commit (Writer.mk true [] []) ⟨1, [65], 1⟩ rfl (by norm_num [kMaxLength]) rfl

/-! ### C7: the iterator moves frame to frame, and `--` inverts `++` -/

lemma encodeFrames_cons (f : Frame) (fs : List Frame) :
    encodeFrames (f :: fs) = encodeFrame f ++ encodeFrames fs := by
  simp [encodeFrames]

lemma encodeFrames_append (fs gs : List Frame) :
    encodeFrames (fs ++ gs) = encodeFrames fs ++ encodeFrames gs := by
  simp [encodeFrames]

lemma getD_encodeFrame_len (f : Frame) (rest : List Nat) :
    (encodeFrame f ++ rest).getD 1 0 = f.payload.length := by
  simp [encodeFrame]

lemma getD_encodeFrame_type (f : Frame) (rest : List Nat) :
    (encodeFrame f ++ rest).getD 0 0 = f.type := by
  simp [encodeFrame]

lemma getD_encodeFrame_trailing (f : Frame) (rest : List Nat) :
    (encodeFrame f ++ rest).getD (f.payload.length + 2) 0 = f.payload.length := by
  show ((f.type :: f.payload.length :: (f.payload ++ [f.payload.length])) ++ rest).getD
      (f.payload.length + 2) 0 = f.payload.length
  simp only [List.cons_append]
  show ((f.payload ++ [f.payload.length]) ++ rest).getD f.payload.length 0 = f.payload.length
  simp only [List.getD_eq_getElem?_getD]
  rw [List.getElem?_append_left (by simp)]
  rw [List.getElem?_append_right (by omega)]
  simp

lemma iterNext_at_frame (pre : List Nat) (f : Frame) (rest : List Nat) :
    iterNext (pre ++ (encodeFrame f ++ rest)) (pre.length : Int) =
      (pre.length : Int) + ((encodeFrame f).length : Int) := by
  unfold iterNext
  have h1 : byteAt (pre ++ (encodeFrame f ++ rest)) ((pre.length : Int) + 1) =
      f.payload.length := by
    have h := byteAt_append pre (encodeFrame f ++ rest) 1
    rw [getD_encodeFrame_len] at h
    simpa using h
  rw [h1, encodeFrame_length]
  simp only [kOverhead]
  push_cast
  ring

lemma iterPrev_at_frame_end (pre : List Nat) (f : Frame) (rest : List Nat) :
    iterPrev (pre ++ (encodeFrame f ++ rest))
        ((pre.length : Int) + ((encodeFrame f).length : Int)) = (pre.length : Int) := by
  unfold iterPrev
  have hidx : (pre.length : Int) + ((encodeFrame f).length : Int) + kPreviousLengthOffset =
      (pre.length : Int) + ((f.payload.length + 2 : Nat) : Int) := by
    rw [encodeFrame_length]
    simp only [kPreviousLengthOffset, kOverhead]
    push_cast
    ring
  rw [hidx, byteAt_append pre (encodeFrame f ++ rest) (f.payload.length + 2),
    getD_encodeFrame_trailing, encodeFrame_length]
  simp only [kOverhead]
  push_cast
  ring

/-- C7.  In a buffer laid out as a sequence of writer-emitted frames, at
every frame boundary `p` advancing the iterator (`++`, which moves forward
by the leading length byte plus `kOverhead`) lands on the next frame
boundary, and then decrementing it (`--`, which moves back by the trailing
length byte at `kPreviousLengthOffset` plus `kOverhead`) returns to `p`;
hence forward iteration from `begin` to `end` and backward iteration from
`end` to `begin` visit the same frame boundaries in reverse order. -/
theorem C7_iterator_roundtrip (pre post : List Frame) (f : Frame) :
    iterNext (encodeFrames (pre ++ f :: post)) ((encodeFrames pre).length : Int) =
      ((encodeFrames pre).length : Int) + ((encodeFrame f).length : Int) ∧
    iterPrev (encodeFrames (pre ++ f :: post))
        (((encodeFrames pre).length : Int) + ((encodeFrame f).length : Int)) =
      ((encodeFrames pre).length : Int) := by
  have hbuf : encodeFrames (pre ++ f :: post) =
      encodeFrames pre ++ (encodeFrame f ++ encodeFrames post) := by
    rw [encodeFrames_append, encodeFrames_cons]
  rw [hbuf]
  exact ⟨iterNext_at_frame _ f _, iterPrev_at_frame_end _ f _⟩

/-! ### C10: `author()` and its -1 sentinel -/

lemma byteAt_frame_len (pre : List Nat) (f : Frame) (rest : List Nat) :
    byteAt (pre ++ (encodeFrame f ++ rest)) ((pre.length : Int) + 1) = f.payload.length := by
  have h := byteAt_append pre (encodeFrame f ++ rest) 1
  rw [getD_encodeFrame_len] at h
  simpa using h

lemma byteAt_frame_type (pre : List Nat) (f : Frame) (rest : List Nat) :
    byteAt (pre ++ (encodeFrame f ++ rest)) (pre.length : Int) = f.type := by
  have h := byteAt_append pre (encodeFrame f ++ rest) 0
  rw [getD_encodeFrame_type] at h
  simpa using h

lemma iterNext_boundary (pre : List Nat) (f : Frame) (rest : List Nat) :
    iterNext (pre ++ (encodeFrame f ++ rest)) (pre.length : Int) =
      (((pre ++ encodeFrame f).length : Nat) : Int) := by
  rw [iterNext_at_frame]
  push_cast [List.length_append]
  ring

lemma payloadBytes_at_frame (pre : List Nat) (f : Frame) (rest : List Nat) (n : Nat)
    (h : n ≤ f.payload.length) :
    payloadBytes (pre ++ (encodeFrame f ++ rest)) (pre.length : Int) n = f.payload.take n := by
  unfold payloadBytes
  have ht : ((pre.length : Int) + 2).toNat = pre.length + 2 := by omega
  rw [ht, List.drop_append 2]
  show (((f.type :: f.payload.length :: (f.payload ++ [f.payload.length])) ++ rest).drop 2).take n
      = f.payload.take n
  simp only [List.cons_append, List.drop_succ_cons, List.drop_zero]
  rw [List.append_assoc, List.take_append_of_le_length h]

/-- C10.  `author()` uses -1 as a not-tagged sentinel.  For a
`FormatEntry` laid out at a frame boundary, if the fourth frame (after the
start-fmt, timestamp and hash frames) is not of type `EVENT_AUTHOR` then
`author()` returns -1, otherwise it returns that frame's integer payload.
For a `HistogramEntry`, if the frame's payload length differs from
`sizeof(HistTsEntryWithAuthor)` then `author()` returns -1, otherwise it
returns the embedded author field (the `int` after hash and timestamp). -/
theorem C10_author_sentinel :
    (∀ (pre rest : List Nat) (f0 f1 f2 f3 : Frame),
      (f3.type ≠ EVENT_AUTHOR →
        FormatEntry.author (pre ++ encodeFrames [f0, f1, f2, f3] ++ rest)
          (pre.length : Int) = -1) ∧
      (f3.type = EVENT_AUTHOR → f3.payload.length = sizeofInt →
        FormatEntry.author (pre ++ encodeFrames [f0, f1, f2, f3] ++ rest)
          (pre.length : Int) = decodeInt32 f3.payload)) ∧
    (∀ (pre rest : List Nat) (g : Frame),
      (g.payload.length ≠ sizeofHistTsEntryWithAuthor →
        HistogramEntry.author (pre ++ (encodeFrame g ++ rest)) (pre.length : Int) = -1) ∧
      (g.payload.length = sizeofHistTsEntryWithAuthor →
        HistogramEntry.author (pre ++ (encodeFrame g ++ rest)) (pre.length : Int) =
          decodeInt32 (g.payload.drop sizeofHistTsEntry))) := by
  constructor
  · intro pre rest f0 f1 f2 f3
    have hb0 : pre ++ encodeFrames [f0, f1, f2, f3] ++ rest =
        pre ++ (encodeFrame f0 ++ (encodeFrame f1 ++ (encodeFrame f2 ++
          (encodeFrame f3 ++ rest)))) := by
      simp [encodeFrames, List.append_assoc]
    have hb1 : pre ++ encodeFrames [f0, f1, f2, f3] ++ rest =
        (pre ++ encodeFrame f0) ++ (encodeFrame f1 ++ (encodeFrame f2 ++
          (encodeFrame f3 ++ rest))) := by
      rw [hb0]
      simp [List.append_assoc]
    have hb2 : pre ++ encodeFrames [f0, f1, f2, f3] ++ rest =
        ((pre ++ encodeFrame f0) ++ encodeFrame f1) ++ (encodeFrame f2 ++
          (encodeFrame f3 ++ rest)) := by
      rw [hb1]
      simp [List.append_assoc]
    have hb3 : pre ++ encodeFrames [f0, f1, f2, f3] ++ rest =
        (((pre ++ encodeFrame f0) ++ encodeFrame f1) ++ encodeFrame f2) ++
          (encodeFrame f3 ++ rest) := by
      rw [hb2]
      simp [List.append_assoc]
    have s1 : iterNext (pre ++ encodeFrames [f0, f1, f2, f3] ++ rest) (pre.length : Int) =
        (((pre ++ encodeFrame f0).length : Nat) : Int) := by
      rw [hb0]
      exact iterNext_boundary pre f0 _
    have s2 : iterNext (pre ++ encodeFrames [f0, f1, f2, f3] ++ rest)
        (((pre ++ encodeFrame f0).length : Nat) : Int) =
        ((((pre ++ encodeFrame f0) ++ encodeFrame f1).length : Nat) : Int) := by
      rw [hb1]
      exact iterNext_boundary _ f1 _
    have s3 : iterNext (pre ++ encodeFrames [f0, f1, f2, f3] ++ rest)
        ((((pre ++ encodeFrame f0) ++ encodeFrame f1).length : Nat) : Int) =
        (((((pre ++ encodeFrame f0) ++ encodeFrame f1) ++ encodeFrame f2).length : Nat) : Int) := by
      rw [hb2]
      exact iterNext_boundary _ f2 _
    have ty : byteAt (pre ++ encodeFrames [f0, f1, f2, f3] ++ rest)
        (((((pre ++ encodeFrame f0) ++ encodeFrame f1) ++ encodeFrame f2).length : Nat) : Int) =
        f3.type := by
      rw [hb3]
      exact byteAt_frame_type _ f3 _
    constructor
    · intro hne
      simp only [FormatEntry.author]
      rw [s1, s2, s3, ty, if_neg hne]
    · intro heq hlen
      simp only [FormatEntry.author]
      rw [s1, s2, s3, ty, if_pos heq]
      have hp : payloadBytes (pre ++ encodeFrames [f0, f1, f2, f3] ++ rest)
          (((((pre ++ encodeFrame f0) ++ encodeFrame f1) ++ encodeFrame f2).length : Nat) : Int)
          sizeofInt = f3.payload.take sizeofInt := by
        rw [hb3]
        exact payloadBytes_at_frame _ f3 _ sizeofInt (le_of_eq hlen.symm)
      rw [hp, ← hlen, List.take_length]
  · intro pre rest g
    have hlen1 : byteAt (pre ++ (encodeFrame g ++ rest)) ((pre.length : Int) + 1) =
        g.payload.length := byteAt_frame_len pre g rest
    constructor
    · intro hne
      simp only [HistogramEntry.author]
      rw [hlen1, if_neg hne]
    · intro heq
      simp only [HistogramEntry.author]
      rw [hlen1, if_pos heq]
      rw [payloadBytes_at_frame pre g rest _ (le_of_eq heq.symm), ← heq, List.take_length]

/-- C10 witness: a merged format record whose fourth frame is
`AUTHOR(1)`, and a histogram frame carrying an author, evaluated through
the theorem. -/
theorem C10_witness :
    (FormatEntry.author
        (([] : List Nat) ++ encodeFrames
          [⟨EVENT_START_FMT, [37, 100]⟩, ⟨EVENT_TIMESTAMP, List.replicate 16 0⟩,
           ⟨EVENT_HASH, List.replicate 8 0⟩, ⟨EVENT_AUTHOR, [1, 0, 0, 0]⟩] ++ [])
        ((([] : List Nat)).length : Int) = decodeInt32 [1, 0, 0, 0]) ∧
    (HistogramEntry.author
        (([] : List Nat) ++ (encodeFrame ⟨EVENT_HISTOGRAM_ENTRY_TS, List.replicate 28 0⟩ ++ []))
        ((([] : List Nat)).length : Int) =
      decodeInt32 ((List.replicate 28 0).drop sizeofHistTsEntry)) :=
  ⟨(C10_author_sentinel.1 [] [] _ _ _ _).2 rfl rfl,
   (C10_author_sentinel.2 [] [] _).2 (by simp [sizeofHistTsEntryWithAuthor, sizeofHistTsEntry,
     sizeofLogHash, sizeofTimespec, sizeofInt])⟩

/-! ### C1: the frame sequence of `logVFormat` -/

lemma enabled_after_emit (w : Writer) (bs : List Nat) :
    ({ w with mFifo := w.mFifo ++ bs } : Writer).mEnabled = w.mEnabled := rfl

lemma logCString_emit (w : Writer) (hw : w.mEnabled = true) (str : List Nat) :
    w.logCString (some str) =
      some { w with
        mFifo := w.mFifo ++ encodeFrame (Frame.mk EVENT_STRING (str.take (min (cstrlen str) kMaxLength))) } := by
  unfold Writer.logCString
  rw [hw]
  simp only [Bool.not_true, Bool.false_eq_true, if_false]
  rw [logEv_emit w hw EVENT_STRING str (min (cstrlen str) kMaxLength) (min_le_right _ _)
    (le_trans (min_le_left _ _) (cstrlen_le_length str)) (by decide) (by decide), hw]

lemma logTimestampAt_emit (w : Writer) (hw : w.mEnabled = true) (tsB : List Nat)
    (hts : tsB.length = sizeofTimespec) :
    w.logTimestampAt tsB =
      { w with mFifo := w.mFifo ++ encodeFrame ⟨EVENT_TIMESTAMP, tsB⟩ } := by
  unfold Writer.logTimestampAt
  rw [hw]
  simp only [Bool.not_true, Bool.false_eq_true, if_false]
  rw [logEv_emit w hw EVENT_TIMESTAMP tsB sizeofTimespec (by decide) (le_of_eq hts.symm)
    (by decide) (by decide), ← hts, List.take_length, hw]

lemma logTimestampClock_emit (w : Writer) (hw : w.mEnabled = true) (tsB : List Nat)
    (hts : tsB.length = sizeofTimespec) :
    w.logTimestampClock (some tsB) =
      { w with mFifo := w.mFifo ++ encodeFrame ⟨EVENT_TIMESTAMP, tsB⟩ } := by
  unfold Writer.logTimestampClock
  rw [hw]
  simp only [Bool.not_true, Bool.false_eq_true, if_false]
  rw [logEv_emit w hw EVENT_TIMESTAMP tsB sizeofTimespec (by decide) (le_of_eq hts.symm)
    (by decide) (by decide), ← hts, List.take_length, hw]

lemma logInteger_emit (w : Writer) (hw : w.mEnabled = true) (i : Int) :
    w.logInteger i = { w with mFifo := w.mFifo ++ encodeFrame ⟨EVENT_INTEGER, intLE32 i⟩ } := by
  unfold Writer.logInteger
  rw [hw]
  simp only [Bool.not_true, Bool.false_eq_true, if_false]
  rw [logEv_emit w hw EVENT_INTEGER (intLE32 i) sizeofInt (by decide)
    (le_of_eq (intLE32_length i).symm) (by decide) (by decide)]
  rw [show sizeofInt = (intLE32 i).length from (intLE32_length i).symm, List.take_length, hw]

lemma logFloat_emit (w : Writer) (hw : w.mEnabled = true) (b : Nat) :
    w.logFloat b = { w with mFifo := w.mFifo ++ encodeFrame ⟨EVENT_FLOAT, le32 b⟩ } := by
  unfold Writer.logFloat
  rw [hw]
  simp only [Bool.not_true, Bool.false_eq_true, if_false]
  rw [logEv_emit w hw EVENT_FLOAT (le32 b) sizeofInt (by decide)
    (le_of_eq (le32_length b).symm) (by decide) (by decide)]
  rw [show sizeofInt = (le32 b).length from (le32_length b).symm, List.take_length, hw]

lemma logPID_emit (w : Writer) (hw : w.mEnabled = true) (hpid : w.mPidTag.length ≤ kMaxLength) :
    w.logPID = { w with mFifo := w.mFifo ++ encodeFrame ⟨EVENT_PID, w.mPidTag⟩ } := by
  unfold Writer.logPID
  rw [hw]
  simp only [Bool.not_true, Bool.false_eq_true, if_false]
  rw [logEv_emit w hw EVENT_PID w.mPidTag w.mPidTag.length hpid le_rfl (by decide) (by decide),
    List.take_length, hw]

lemma logStart_emit (w : Writer) (hw : w.mEnabled = true) (fmt : List Nat) :
    w.logStart fmt = { w with
      mFifo := w.mFifo ++ encodeFrame (Frame.mk EVENT_START_FMT (fmt.take (min (cstrlen fmt) kMaxLength))) } := by
  unfold Writer.logStart
  rw [hw]
  simp only [Bool.not_true, Bool.false_eq_true, if_false]
  rw [logEv_emit w hw EVENT_START_FMT fmt (min (cstrlen fmt) kMaxLength) (min_le_right _ _)
    (le_trans (min_le_left _ _) (cstrlen_le_length fmt)) (by decide) (by decide), hw]

lemma logHash_emit (w : Writer) (hw : w.mEnabled = true) (hash : Nat) :
    w.logHash hash = { w with mFifo := w.mFifo ++ encodeFrame ⟨EVENT_HASH, le64 hash⟩ } := by
  unfold Writer.logHash
  rw [hw]
  simp only [Bool.not_true, Bool.false_eq_true, if_false]
  rw [logEv_emit w hw EVENT_HASH (le64 hash) sizeofLogHash (by decide)
    (le_of_eq (le64_length hash).symm) (by decide) (by decide)]
  rw [show sizeofLogHash = (le64 hash).length from (le64_length hash).symm, List.take_length,
    hw]

lemma logEnd_emit (w : Writer) (hw : w.mEnabled = true) :
    w.logEnd = { w with mFifo := w.mFifo ++ encodeFrame ⟨EVENT_END_FMT, []⟩ } := by
  unfold Writer.logEnd
  rw [hw]
  simp only [Bool.not_true, Bool.false_eq_true, if_false]
  rw [logTrusted_emit w hw EVENT_END_FMT [] 0 (by simp), hw]
  rfl

lemma scanFormat_spec (n : Nat) :
    ∀ (fmt : List Nat) (args : List VArg) (w : Writer), fmt.length ≤ n →
      w.mEnabled = true → w.mPidTag.length ≤ kMaxLength → argsMatch fmt args = true →
      scanFormat w fmt args =
        some { w with mFifo := w.mFifo ++ specArgBytes w.mPidTag fmt args } := by
  induction n with
  | zero =>
    intro fmt args w hlen hw hpid hm
    have : fmt = [] := List.length_eq_zero.1 (Nat.le_zero.1 hlen)
    subst this
    rw [scanFormat.eq_def, specArgBytes.eq_def]
    simp
  | succ n ih =>
    intro fmt args w hlen hw hpid hm
    match fmt with
    | [] =>
      rw [scanFormat.eq_def, specArgBytes.eq_def]
      simp
    | c :: rest =>
      by_cases hc0 : c = 0
      · subst hc0
        rw [scanFormat.eq_def, specArgBytes.eq_def]
        simp
      by_cases hc : c = 37
      case neg =>
        have hrw : scanFormat w (c :: rest) args = scanFormat w rest args := by
          conv_lhs => rw [scanFormat.eq_def]
          dsimp only
          rw [if_neg hc0, if_pos hc]
        have hsp : specArgBytes w.mPidTag (c :: rest) args =
            specArgBytes w.mPidTag rest args := by
          conv_lhs => rw [specArgBytes.eq_def]
          dsimp only
          rw [if_neg hc0, if_pos hc]
        have hm2 : argsMatch rest args = true := by
          rw [argsMatch.eq_def] at hm
          dsimp only at hm
          rwa [if_neg hc0, if_pos hc] at hm
        rw [hrw, hsp]
        exact ih rest args w (by simp only [List.length_cons] at hlen; omega) hw hpid hm2
      case pos =>
        subst hc
        match rest with
        | [] =>
          rw [scanFormat.eq_def, specArgBytes.eq_def]
          simp
        | c2 :: rest2 =>
          have hlen2 : rest2.length ≤ n := by
            simp only [List.length_cons] at hlen
            omega
          have hmain : ∀ (args2 : List VArg) (frame : List Nat),
              argsMatch rest2 args2 = true →
              scanFormat { w with mFifo := w.mFifo ++ frame } rest2 args2 =
                some { w with mFifo := w.mFifo ++
                  (frame ++ specArgBytes w.mPidTag rest2 args2) } := by
            intro args2 frame hm2
            rw [ih rest2 args2 { w with mFifo := w.mFifo ++ frame } hlen2 hw hpid hm2]
            simp [List.append_assoc]
          by_cases h115 : c2 = 115
          · subst h115
            match args with
            | [] => rw [argsMatch.eq_def] at hm; simp at hm
            | VArg.vs none :: args2 => rw [argsMatch.eq_def] at hm; simp at hm
            | VArg.vt _ :: args2 => rw [argsMatch.eq_def] at hm; simp at hm
            | VArg.vd _ :: args2 => rw [argsMatch.eq_def] at hm; simp at hm
            | VArg.vf _ :: args2 => rw [argsMatch.eq_def] at hm; simp at hm
            | VArg.vs (some str) :: args2 =>
              have hm2 : argsMatch rest2 args2 = true := by
                rw [argsMatch.eq_def] at hm
                simpa using hm
              conv_lhs => rw [scanFormat.eq_def]
              dsimp only
              rw [if_neg (by norm_num), if_neg (by norm_num), if_pos rfl,
                logCString_emit w hw str]
              exact hmain args2 _ hm2
          by_cases h116 : c2 = 116
          · subst h116
            match args with
            | [] => rw [argsMatch.eq_def] at hm; simp at hm
            | VArg.vs _ :: args2 => rw [argsMatch.eq_def] at hm; simp at hm
            | VArg.vd _ :: args2 => rw [argsMatch.eq_def] at hm; simp at hm
            | VArg.vf _ :: args2 => rw [argsMatch.eq_def] at hm; simp at hm
            | VArg.vt tsB :: args2 =>
              have hm2 : tsB.length = sizeofTimespec ∧ argsMatch rest2 args2 = true := by
                rw [argsMatch.eq_def] at hm
                simpa using hm
              conv_lhs => rw [scanFormat.eq_def]
              dsimp only
              rw [if_neg (by norm_num), if_neg (by norm_num), if_neg (by norm_num),
                if_pos rfl, logTimestampAt_emit w hw tsB hm2.1]
              exact hmain args2 _ hm2.2
          by_cases h100 : c2 = 100
          · subst h100
            match args with
            | [] => rw [argsMatch.eq_def] at hm; simp at hm
            | VArg.vs _ :: args2 => rw [argsMatch.eq_def] at hm; simp at hm
            | VArg.vt _ :: args2 => rw [argsMatch.eq_def] at hm; simp at hm
            | VArg.vf _ :: args2 => rw [argsMatch.eq_def] at hm; simp at hm
            | VArg.vd i :: args2 =>
              have hm2 : argsMatch rest2 args2 = true := by
                rw [argsMatch.eq_def] at hm
                simpa using hm
              conv_lhs => rw [scanFormat.eq_def]
              dsimp only
              rw [if_neg (by norm_num), if_neg (by norm_num), if_neg (by norm_num),
                if_neg (by norm_num), if_pos rfl, logInteger_emit w hw i]
              exact hmain args2 _ hm2
          by_cases h102 : c2 = 102
          · subst h102
            match args with
            | [] => rw [argsMatch.eq_def] at hm; simp at hm
            | VArg.vs _ :: args2 => rw [argsMatch.eq_def] at hm; simp at hm
            | VArg.vt _ :: args2 => rw [argsMatch.eq_def] at hm; simp at hm
            | VArg.vd _ :: args2 => rw [argsMatch.eq_def] at hm; simp at hm
            | VArg.vf b :: args2 =>
              have hm2 : argsMatch rest2 args2 = true := by
                rw [argsMatch.eq_def] at hm
                simpa using hm
              conv_lhs => rw [scanFormat.eq_def]
              dsimp only
              rw [if_neg (by norm_num), if_neg (by norm_num), if_neg (by norm_num),
                if_neg (by norm_num), if_neg (by norm_num), if_pos rfl,
                logFloat_emit w hw b]
              exact hmain args2 _ hm2
          by_cases h112 : c2 = 112
          · subst h112
            have hm2 : argsMatch rest2 args = true := by
              rw [argsMatch.eq_def] at hm
              simpa using hm
            conv_lhs => rw [scanFormat.eq_def]
            dsimp only
            rw [if_neg (by norm_num), if_neg (by norm_num), if_neg (by norm_num),
              if_neg (by norm_num), if_neg (by norm_num), if_neg (by norm_num),
              if_pos rfl, logPID_emit w hw hpid]
            exact hmain args _ hm2
          by_cases h0 : c2 = 0
          · subst h0
            conv_lhs => rw [scanFormat.eq_def]
            conv_rhs => rw [specArgBytes.eq_def]
            simp
          · have hm2 : argsMatch rest2 args = true := by
              rw [argsMatch.eq_def] at hm
              dsimp only at hm
              rwa [if_neg (by norm_num), if_neg (by norm_num), if_neg h115, if_neg h116,
                if_neg h100, if_neg h102] at hm
            have hsp : specArgBytes w.mPidTag (37 :: c2 :: rest2) args =
                specArgBytes w.mPidTag rest2 args := by
              conv_lhs => rw [specArgBytes.eq_def]
              dsimp only
              rw [if_neg (by norm_num), if_neg (by norm_num), if_neg h115, if_neg h116,
                if_neg h100, if_neg h102, if_neg h112, if_neg h0]
            have hsc : scanFormat w (37 :: c2 :: rest2) args = scanFormat w rest2 args := by
              conv_lhs => rw [scanFormat.eq_def]
              dsimp only
              rw [if_neg (by norm_num), if_neg (by norm_num), if_neg h115, if_neg h116,
                if_neg h100, if_neg h102, if_neg h112, if_neg h0]
            rw [hsc, hsp]
            exact ih rest2 args w hlen2 hw hpid hm2

/-- C1.  For every enabled Writer, every `logFormat(fmt, hash, args...)`
call (which forwards to `logVFormat`) in which the monotonic clock read
succeeds and every string argument is non-null emits exactly:
`START_FMT` with `fmt` truncated to `kMaxLength`, `TIMESTAMP`, `HASH(hash)`,
one argument frame per format specifier in `fmt` order (`%s` a STRING,
`%t` a TIMESTAMP, `%d` an INTEGER, `%f` a FLOAT, `%p` a PID; `%%`, `%` at
the terminator and unknown specifiers emit no frame), then `END_FMT`, and
nothing else. -/
theorem C1_logVFormat_frames (w : Writer) (fmt : List Nat) (hash : Nat) (tsB : List Nat)
    (args : List VArg) (hen : w.mEnabled = true) (hpid : w.mPidTag.length ≤ kMaxLength)
    (hts : tsB.length = sizeofTimespec) (hz : 0 ∉ fmt) (hargs : argsMatch fmt args = true) :
    w.logVFormat fmt hash (some tsB) args =
      some { w with mFifo := w.mFifo ++
        (encodeFrame (Frame.mk EVENT_START_FMT (fmt.take kMaxLength)) ++
         (encodeFrame (Frame.mk EVENT_TIMESTAMP tsB) ++
          (encodeFrame (Frame.mk EVENT_HASH (le64 hash)) ++
           (specArgBytes w.mPidTag fmt args ++
            encodeFrame (Frame.mk EVENT_END_FMT []))))) } := by
  have htake : fmt.take (min (cstrlen fmt) kMaxLength) = fmt.take kMaxLength := by
    rw [cstrlen_of_no_nul fmt hz]
    rcases le_total fmt.length kMaxLength with h | h
    · rw [min_eq_left h, List.take_length, List.take_of_length_le h]
    · rw [min_eq_right h]
  have logTimestampClock_emitM : ∀ (en : Bool) (fifo pid tsB2 : List Nat), en = true →
      tsB2.length = sizeofTimespec →
      (Writer.mk en fifo pid).logTimestampClock (some tsB2) =
        Writer.mk en (fifo ++ encodeFrame (Frame.mk EVENT_TIMESTAMP tsB2)) pid := by
    intro en fifo pid tsB2 hen2 hts2
    have h := logTimestampClock_emit (Writer.mk en fifo pid) hen2 tsB2 hts2
    simpa using h
  have logHash_emitM : ∀ (en : Bool) (fifo pid : List Nat) (hash2 : Nat), en = true →
      (Writer.mk en fifo pid).logHash hash2 =
        Writer.mk en (fifo ++ encodeFrame (Frame.mk EVENT_HASH (le64 hash2))) pid := by
    intro en fifo pid hash2 hen2
    have h := logHash_emit (Writer.mk en fifo pid) hen2 hash2
    simpa using h
  have logEnd_emitM : ∀ (en : Bool) (fifo pid : List Nat), en = true →
      (Writer.mk en fifo pid).logEnd =
        Writer.mk en (fifo ++ encodeFrame (Frame.mk EVENT_END_FMT [])) pid := by
    intro en fifo pid hen2
    have h := logEnd_emit (Writer.mk en fifo pid) hen2
    simpa using h
  have scanFormat_specM : ∀ (en : Bool) (fifo pid : List Nat), en = true →
      pid.length ≤ kMaxLength → argsMatch fmt args = true →
      scanFormat (Writer.mk en fifo pid) fmt args =
        some (Writer.mk en (fifo ++ specArgBytes pid fmt args) pid) := by
    intro en fifo pid hen2 hpid2 hm2
    have h := scanFormat_spec fmt.length fmt args (Writer.mk en fifo pid) le_rfl hen2 hpid2 hm2
    simpa using h
  unfold Writer.logVFormat
  rw [if_neg (show ¬((!w.mEnabled) = true) by simp [hen])]
  rw [logStart_emit w hen fmt, htake]
  rw [logTimestampClock_emitM w.mEnabled _ _ tsB hen hts]
  rw [logHash_emitM w.mEnabled _ _ hash hen]
  rw [scanFormat_specM w.mEnabled _ _ hen hpid hargs]
  rw [Option.map_some']
  rw [logEnd_emitM w.mEnabled _ _ hen]
  simp [List.append_assoc]

/-- C1 witness: a concrete enabled writer logging `"x=%d"` with one integer
argument and a successful clock read. -/
theorem C1_witness :
    (Writer.mk true [] [7, 0, 0, 0]).logVFormat [120, 61, 37, 100] 5
        (some (List.replicate 16 0)) [VArg.vd 7] =
      some { Writer.mk true [] [7, 0, 0, 0] with
        mFifo := (Writer.mk true [] [7, 0, 0, 0]).mFifo ++
          (encodeFrame (Frame.mk EVENT_START_FMT ([120, 61, 37, 100].take kMaxLength)) ++
           (encodeFrame (Frame.mk EVENT_TIMESTAMP (List.replicate 16 0)) ++
            (encodeFrame (Frame.mk EVENT_HASH (le64 5)) ++
             (specArgBytes (Writer.mk true [] [7, 0, 0, 0]).mPidTag [120, 61, 37, 100]
                [VArg.vd 7] ++
              encodeFrame (Frame.mk EVENT_END_FMT []))))) } :=
  C1_logVFormat_frames (Writer.mk true [] [7, 0, 0, 0]) [120, 61, 37, 100] 5
    (List.replicate 16 0) [VArg.vd 7] rfl (by norm_num [kMaxLength]) (by simp [sizeofTimespec])
    (by decide) (by decide)

/-! ### C5: `copyWithAuthor` inserts exactly one author tag -/

lemma entryAt_at_frame (pre : List Nat) (f : Frame) (rest : List Nat) :
    entryAt (pre ++ (encodeFrame f ++ rest)) (pre.length : Int) = encodeFrame f := by
  unfold entryAt
  rw [byteAt_frame_len]
  have ht : ((pre.length : Int)).toNat = pre.length := by omega
  rw [ht, List.drop_left]
  rw [List.take_left' (encodeFrame_length f)]

lemma le_encodeFrames_length (fs : List Frame) : fs.length ≤ (encodeFrames fs).length := by
  induction fs with
  | nil => simp [encodeFrames]
  | cons f fs ih =>
    simp only [encodeFrames, List.map_cons, List.flatten_cons, List.length_append,
      List.length_cons] at *
    have : 1 ≤ (encodeFrame f).length := by simp [encodeFrame]
    omega

lemma copyRest_spec (endF : Frame) (hend : endF.type = EVENT_END_FMT) :
    ∀ (gs : List Frame) (fuel : Nat) (pre rest dst : List Nat) (it : Int),
      gs.length < fuel →
      (∀ g ∈ gs, g.type ≠ EVENT_END_FMT) →
      iterNext (pre ++ (encodeFrames (gs ++ [endF]) ++ rest)) it = (pre.length : Int) →
      copyRest (pre ++ (encodeFrames (gs ++ [endF]) ++ rest)) fuel it dst =
        (dst ++ encodeFrames (gs ++ [endF]),
         (pre.length : Int) + ((encodeFrames (gs ++ [endF])).length : Int)) := by
  intro gs
  induction gs with
  | nil =>
    intro fuel pre rest dst it hfuel hno hstep
    match fuel, hfuel with
    | fuel + 1, _ =>
      have hbuf : encodeFrames ([] ++ [endF]) ++ rest = encodeFrame endF ++ rest := by
        simp [encodeFrames]
      rw [hbuf] at hstep ⊢
      show (if byteAt (pre ++ (encodeFrame endF ++ rest)) (iterNext _ it) ≠ EVENT_END_FMT
              then _ else _) = _
      rw [hstep, byteAt_frame_type, hend, if_neg (by simp)]
      rw [entryAt_at_frame, iterNext_at_frame]
      simp [encodeFrames]
  | cons g gs2 ih =>
    intro fuel pre rest dst it hfuel hno hstep
    match fuel, hfuel with
    | fuel + 1, hfuel =>
      have hbuf : encodeFrames ((g :: gs2) ++ [endF]) ++ rest =
          encodeFrame g ++ (encodeFrames (gs2 ++ [endF]) ++ rest) := by
        simp [encodeFrames]
      rw [hbuf] at hstep ⊢
      show (if byteAt (pre ++ (encodeFrame g ++ (encodeFrames (gs2 ++ [endF]) ++ rest)))
              (iterNext _ it) ≠ EVENT_END_FMT then _ else _) = _
      rw [hstep, byteAt_frame_type, if_pos (hno g (by simp)), entryAt_at_frame]
      have hassoc : pre ++ (encodeFrame g ++ (encodeFrames (gs2 ++ [endF]) ++ rest)) =
          (pre ++ encodeFrame g) ++ (encodeFrames (gs2 ++ [endF]) ++ rest) := by
        simp [List.append_assoc]
      have hstep2 : iterNext ((pre ++ encodeFrame g) ++ (encodeFrames (gs2 ++ [endF]) ++ rest))
          (pre.length : Int) = ((pre ++ encodeFrame g).length : Int) := by
        rw [← hassoc]
        exact iterNext_boundary pre g _
      rw [hassoc]
      rw [ih fuel (pre ++ encodeFrame g) rest (dst ++ encodeFrame g) (pre.length : Int)
        (by simp only [List.length_cons] at hfuel; omega)
        (fun g2 hg2 => hno g2 (by simp [hg2])) hstep2]
      have hfr : encodeFrames ((g :: gs2) ++ [endF]) =
          encodeFrame g ++ encodeFrames (gs2 ++ [endF]) := by
        simp [encodeFrames]
      rw [hfr]
      simp only [Prod.mk.injEq]
      refine ⟨by simp [List.append_assoc], ?_⟩
      simp only [List.length_append]
      push_cast
      ring

/-- C5.  For every well-formed source record without an existing AUTHOR
frame and every stream index `i`, `copyWithAuthor(dst, i)` writes to `dst`
a record containing exactly one author tag equal to `i`.  For a
`FormatEntry` (frames `START_FMT, TIMESTAMP, HASH, gs..., END_FMT`) it
copies the first three frames, writes a synthesized `AUTHOR(i)` frame, then
copies every remaining frame up to and including `END_FMT`; the copied
record carries exactly one AUTHOR frame and its payload decodes to `i`.
For a `HistogramEntry` it writes a single frame whose payload is the source
`HistTsEntry` payload extended with the author index and whose leading and
trailing length bytes both equal `sizeof(HistTsEntryWithAuthor)`. -/
theorem C5_copyWithAuthor (pre rest dst : List Nat) (i : Nat)
    (f0 f1 f2 endF : Frame) (gs : List Frame)
    (h0 : f0.type = EVENT_START_FMT) (h1 : f1.type = EVENT_TIMESTAMP)
    (h2 : f2.type = EVENT_HASH) (hend : endF.type = EVENT_END_FMT)
    (hnoe : ∀ g ∈ gs, g.type ≠ EVENT_END_FMT) (hnoa : ∀ g ∈ gs, g.type ≠ EVENT_AUTHOR)
    (g : Frame) (hg : g.payload.length = sizeofHistTsEntry) (hi : i < 2147483648) :
    (FormatEntry.copyWithAuthor
        (pre ++ (encodeFrames ([f0, f1, f2] ++ gs ++ [endF]) ++ rest))
        (pre.length : Int) i dst =
      (dst ++ encodeFrames ([f0, f1, f2] ++ [Frame.mk EVENT_AUTHOR (le32 i)] ++ gs ++ [endF]),
       (pre.length : Int) +
         ((encodeFrames ([f0, f1, f2] ++ gs ++ [endF])).length : Int))) ∧
    (([f0, f1, f2] ++ [Frame.mk EVENT_AUTHOR (le32 i)] ++ gs ++ [endF]).countP
        (fun fr => fr.type == EVENT_AUTHOR) = 1) ∧
    decodeInt32 (le32 i) = (i : Int) ∧
    (HistogramEntry.copyWithAuthor (pre ++ (encodeFrame g ++ rest)) (pre.length : Int) i dst =
      (dst ++ encodeFrame (Frame.mk g.type (g.payload ++ le32 i)),
       (pre.length : Int) + ((encodeFrame g).length : Int))) ∧
    (g.payload ++ le32 i).length = sizeofHistTsEntryWithAuthor := by
  have hlen28 : (g.payload ++ le32 i).length = sizeofHistTsEntryWithAuthor := by
    simp [hg, sizeofHistTsEntryWithAuthor, sizeofInt, le32]
  refine ⟨?_, ?_, ?_, ?_, hlen28⟩
  · -- FormatEntry.copyWithAuthor
    have hbuf0 : pre ++ (encodeFrames ([f0, f1, f2] ++ gs ++ [endF]) ++ rest) =
        pre ++ (encodeFrame f0 ++ (encodeFrame f1 ++ (encodeFrame f2 ++
          (encodeFrames (gs ++ [endF]) ++ rest)))) := by
      simp [encodeFrames, List.append_assoc]
    rw [hbuf0]
    unfold FormatEntry.copyWithAuthor
    dsimp only
    rw [entryAt_at_frame pre f0 _, iterNext_boundary pre f0 _]
    have hb1 : pre ++ (encodeFrame f0 ++ (encodeFrame f1 ++ (encodeFrame f2 ++
        (encodeFrames (gs ++ [endF]) ++ rest)))) =
        (pre ++ encodeFrame f0) ++ (encodeFrame f1 ++ (encodeFrame f2 ++
          (encodeFrames (gs ++ [endF]) ++ rest))) := by
      simp [List.append_assoc]
    rw [hb1, entryAt_at_frame _ f1 _, iterNext_boundary _ f1 _]
    have hb2 : (pre ++ encodeFrame f0) ++ (encodeFrame f1 ++ (encodeFrame f2 ++
        (encodeFrames (gs ++ [endF]) ++ rest))) =
        ((pre ++ encodeFrame f0) ++ encodeFrame f1) ++ (encodeFrame f2 ++
          (encodeFrames (gs ++ [endF]) ++ rest)) := by
      simp [List.append_assoc]
    rw [hb2, entryAt_at_frame _ f2 _]
    have hb3 : ((pre ++ encodeFrame f0) ++ encodeFrame f1) ++ (encodeFrame f2 ++
        (encodeFrames (gs ++ [endF]) ++ rest)) =
        (((pre ++ encodeFrame f0) ++ encodeFrame f1) ++ encodeFrame f2) ++
          (encodeFrames (gs ++ [endF]) ++ rest) := by
      simp [List.append_assoc]
    have hstep : iterNext ((((pre ++ encodeFrame f0) ++ encodeFrame f1) ++ encodeFrame f2) ++
        (encodeFrames (gs ++ [endF]) ++ rest))
        (((pre ++ encodeFrame f0) ++ encodeFrame f1).length : Int) =
        ((((pre ++ encodeFrame f0) ++ encodeFrame f1) ++ encodeFrame f2).length : Int) := by
      rw [← hb3]
      have := iterNext_boundary ((pre ++ encodeFrame f0) ++ encodeFrame f1) f2
        (encodeFrames (gs ++ [endF]) ++ rest)
      simpa using this
    rw [hb3]
    have hfuel : gs.length < ((((pre ++ encodeFrame f0) ++ encodeFrame f1) ++ encodeFrame f2) ++
        (encodeFrames (gs ++ [endF]) ++ rest)).length := by
      have h := le_encodeFrames_length (gs ++ [endF])
      simp only [List.length_append, List.length_cons, List.length_nil] at h ⊢
      omega
    rw [copyRest_spec endF hend gs _ _ rest _ _ hfuel hnoe hstep]
    simp only [Prod.mk.injEq]
    constructor
    · have hjoin : encodeFrames ([f0, f1, f2] ++ [Frame.mk EVENT_AUTHOR (le32 i)] ++ gs ++
          [endF]) = encodeFrame f0 ++ (encodeFrame f1 ++ (encodeFrame f2 ++
            ((EVENT_AUTHOR :: sizeofInt :: (le32 i ++ [sizeofInt])) ++
              encodeFrames (gs ++ [endF])))) := by
        simp [encodeFrames, List.append_assoc, encodeFrame, le32, sizeofInt]
      rw [hjoin]
      simp [List.append_assoc]
    · have hjoin2 : encodeFrames ([f0, f1, f2] ++ gs ++ [endF]) =
          encodeFrame f0 ++ (encodeFrame f1 ++ (encodeFrame f2 ++
            encodeFrames (gs ++ [endF]))) := by
        simp [encodeFrames, List.append_assoc]
      rw [hjoin2]
      simp only [List.length_append]
      push_cast
      ring
  · -- exactly one AUTHOR frame
    have c1 : ([f0, f1, f2] : List Frame).countP (fun fr => fr.type == EVENT_AUTHOR) = 0 := by
      rw [List.countP_eq_zero]
      intro a ha2
      simp only [List.mem_cons, List.not_mem_nil, or_false] at ha2
      rcases ha2 with h | h | h <;> subst h <;>
        simp [h0, h1, h2, EVENT_START_FMT, EVENT_TIMESTAMP, EVENT_HASH, EVENT_AUTHOR]
    have c2 : gs.countP (fun fr => fr.type == EVENT_AUTHOR) = 0 := by
      rw [List.countP_eq_zero]
      intro a ha2
      simpa using hnoa a ha2
    have c3 : ([endF] : List Frame).countP (fun fr => fr.type == EVENT_AUTHOR) = 0 := by
      rw [List.countP_eq_zero]
      intro a ha2
      simp only [List.mem_singleton] at ha2
      subst ha2
      simp [hend, EVENT_END_FMT, EVENT_AUTHOR]
    have c4 : ([Frame.mk EVENT_AUTHOR (le32 i)] : List Frame).countP
        (fun fr => fr.type == EVENT_AUTHOR) = 1 := by simp
    rw [List.countP_append, List.countP_append, List.countP_append, c1, c2, c3, c4]
  · -- the author payload decodes to i
    unfold decodeInt32 decLe le32
    simp only [List.foldr]
    have hsum : i % 256 % 256 + 256 * (i / 256 % 256 % 256 + 256 * (i / 65536 % 256 % 256 +
        256 * (i / 16777216 % 256 % 256 + 256 * 0))) = i := by omega
    rw [hsum, if_pos hi]
  · -- HistogramEntry.copyWithAuthor
    unfold HistogramEntry.copyWithAuthor
    dsimp only
    have ht : ((pre.length : Int)).toNat = pre.length := by omega
    rw [ht, List.drop_left]
    have htake : (encodeFrame g ++ rest).take (2 + sizeofHistTsEntry) =
        g.type :: g.payload.length :: g.payload := by
      show ((g.type :: g.payload.length :: (g.payload ++ [g.payload.length])) ++ rest).take
          (2 + sizeofHistTsEntry) = _
      rw [show 2 + sizeofHistTsEntry = Nat.succ (Nat.succ sizeofHistTsEntry) by
        simp [sizeofHistTsEntry]; omega]
      simp only [List.cons_append, List.take_succ_cons]
      congr 1
      congr 1
      rw [List.append_assoc, List.take_append_of_le_length (le_of_eq hg.symm), ← hg,
        List.take_length]
    rw [htake, iterNext_at_frame]
    simp only [Prod.mk.injEq]
    constructor
    · congr 1
      show ((g.type :: g.payload.length :: g.payload) ++ le32 i ++
          [sizeofHistTsEntryWithAuthor]).set 1 sizeofHistTsEntryWithAuthor =
        encodeFrame (Frame.mk g.type (g.payload ++ le32 i))
      simp only [List.cons_append, List.set_cons_succ, List.set_cons_zero]
      rw [encodeFrame]
      simp only [hlen28]
    · trivial

/-- C5 witness: a concrete format record `START_FMT("%d"), TIMESTAMP, HASH,
INTEGER, END_FMT` and a concrete histogram frame, both author-tagged with
stream index 1 through the theorem. -/
theorem C5_witness :
    (FormatEntry.copyWithAuthor
        (([] : List Nat) ++ (encodeFrames ([Frame.mk EVENT_START_FMT [37, 100],
            Frame.mk EVENT_TIMESTAMP (List.replicate 16 0),
            Frame.mk EVENT_HASH (List.replicate 8 0)] ++
            [Frame.mk EVENT_INTEGER [7, 0, 0, 0]] ++ [Frame.mk EVENT_END_FMT []]) ++ []))
        ((([] : List Nat)).length : Int) 1 [] =
      ([] ++ encodeFrames ([Frame.mk EVENT_START_FMT [37, 100],
          Frame.mk EVENT_TIMESTAMP (List.replicate 16 0),
          Frame.mk EVENT_HASH (List.replicate 8 0)] ++
          [Frame.mk EVENT_AUTHOR (le32 1)] ++ [Frame.mk EVENT_INTEGER [7, 0, 0, 0]] ++
          [Frame.mk EVENT_END_FMT []]),
       ((([] : List Nat)).length : Int) +
         ((encodeFrames ([Frame.mk EVENT_START_FMT [37, 100],
             Frame.mk EVENT_TIMESTAMP (List.replicate 16 0),
             Frame.mk EVENT_HASH (List.replicate 8 0)] ++
             [Frame.mk EVENT_INTEGER [7, 0, 0, 0]] ++
             [Frame.mk EVENT_END_FMT []])).length : Int))) ∧
    (([Frame.mk EVENT_START_FMT [37, 100], Frame.mk EVENT_TIMESTAMP (List.replicate 16 0),
        Frame.mk EVENT_HASH (List.replicate 8 0)] ++ [Frame.mk EVENT_AUTHOR (le32 1)] ++
        [Frame.mk EVENT_INTEGER [7, 0, 0, 0]] ++ [Frame.mk EVENT_END_FMT []]).countP
        (fun fr => fr.type == EVENT_AUTHOR) = 1) ∧
    decodeInt32 (le32 1) = (1 : Int) ∧
    (HistogramEntry.copyWithAuthor
        (([] : List Nat) ++
          (encodeFrame (Frame.mk EVENT_HISTOGRAM_ENTRY_TS (List.replicate 24 0)) ++ []))
        ((([] : List Nat)).length : Int) 1 [] =
      ([] ++ encodeFrame (Frame.mk EVENT_HISTOGRAM_ENTRY_TS (List.replicate 24 0 ++ le32 1)),
       ((([] : List Nat)).length : Int) +
         ((encodeFrame (Frame.mk EVENT_HISTOGRAM_ENTRY_TS (List.replicate 24 0))).length :
           Int))) ∧
    (List.replicate 24 0 ++ le32 1).length = sizeofHistTsEntryWithAuthor :=
  C5_copyWithAuthor [] [] [] 1 (Frame.mk EVENT_START_FMT [37, 100])
    (Frame.mk EVENT_TIMESTAMP (List.replicate 16 0)) (Frame.mk EVENT_HASH (List.replicate 8 0))
    (Frame.mk EVENT_END_FMT []) [Frame.mk EVENT_INTEGER [7, 0, 0, 0]] rfl rfl rfl rfl
    (by decide) (by decide) (Frame.mk EVENT_HISTOGRAM_ENTRY_TS (List.replicate 24 0))
    (by simp [sizeofHistTsEntry, sizeofLogHash, sizeofTimespec]) (by norm_num)

/-! ### C2, C3: backward scan and snapshot trimming -/

lemma backChain_bounds_aux (buf : List Nat) (front : Int) :
    ∀ (n : Nat) (back : Int), (back - front).toNat ≤ n →
      ∀ p ∈ backChain buf front back, front ≤ p ∧ p + (kOverhead : Int) ≤ back := by
  intro n
  induction n with
  | zero =>
    intro back hn p hp
    rw [backChain.eq_def] at hp
    rw [if_pos (by simp only [kPreviousLengthOffset]; omega)] at hp
    simp at hp
  | succ n ih =>
    intro back hn p hp
    rw [backChain.eq_def] at hp
    by_cases hc1 : back + kPreviousLengthOffset < front
    · rw [if_pos hc1] at hp
      simp at hp
    rw [if_neg hc1] at hp
    dsimp only at hp
    set prev : Int := back - (byteAt buf (back + kPreviousLengthOffset) : Int) - kOverhead
      with hprev
    by_cases hc2 : prev < front
    · rw [if_pos hc2] at hp
      simp at hp
    rw [if_neg hc2] at hp
    by_cases hc3 : prev + (byteAt buf (prev + 1) : Int) + kOverhead ≠ back
    · rw [if_pos hc3] at hp
      simp at hp
    rw [if_neg hc3] at hp
    push_neg at hc3
    have hb0 : (0 : Int) ≤ byteAt buf (prev + 1) := by positivity
    have hprevle : prev + (kOverhead : Int) ≤ back := by
      simp only [kOverhead] at *
      omega
    rcases List.mem_cons.1 hp with h | h
    · subst h
      exact ⟨not_lt.1 hc2, hprevle⟩
    · have hn2 : (prev - front).toNat ≤ n := by
        simp only [kOverhead, kPreviousLengthOffset] at *
        omega
      have := ih prev hn2 p h
      constructor
      · exact this.1
      · simp only [kOverhead] at *
        omega

lemma backChain_bounds (buf : List Nat) (front back : Int) (p : Int)
    (hp : p ∈ backChain buf front back) : front ≤ p ∧ p + (kOverhead : Int) ≤ back :=
  backChain_bounds_aux buf front (back - front).toNat back le_rfl p hp

lemma backChain_pairwise_aux (buf : List Nat) (front : Int) :
    ∀ (n : Nat) (back : Int), (back - front).toNat ≤ n →
      (backChain buf front back).Pairwise (fun a b => b < a) := by
  intro n
  induction n with
  | zero =>
    intro back hn
    rw [backChain.eq_def]
    rw [if_pos (by simp only [kPreviousLengthOffset]; omega)]
    exact List.Pairwise.nil
  | succ n ih =>
    intro back hn
    rw [backChain.eq_def]
    by_cases hc1 : back + kPreviousLengthOffset < front
    · rw [if_pos hc1]
      exact List.Pairwise.nil
    rw [if_neg hc1]
    dsimp only
    set prev : Int := back - (byteAt buf (back + kPreviousLengthOffset) : Int) - kOverhead
      with hprev
    by_cases hc2 : prev < front
    · rw [if_pos hc2]
      exact List.Pairwise.nil
    rw [if_neg hc2]
    by_cases hc3 : prev + (byteAt buf (prev + 1) : Int) + kOverhead ≠ back
    · rw [if_pos hc3]
      exact List.Pairwise.nil
    rw [if_neg hc3]
    push_neg at hc3
    have hn2 : (prev - front).toNat ≤ n := by
      have hb0 : (0 : Int) ≤ byteAt buf (prev + 1) := by positivity
      simp only [kOverhead, kPreviousLengthOffset] at *
      omega
    refine List.Pairwise.cons ?_ (ih prev hn2)
    intro q hq
    have := backChain_bounds buf front prev q hq
    simp only [kOverhead] at this
    omega

lemma findLast_filter_aux (buf : List Nat) (front : Int) (types : List Nat) :
    ∀ (n : Nat) (back : Int), (back - front).toNat ≤ n →
      (findLastEntryOfTypes buf front types back = none →
        (backChain buf front back).filter (fun p => decide (byteAt buf p ∈ types)) = []) ∧
      (∀ r, findLastEntryOfTypes buf front types back = some r →
        (backChain buf front back).filter (fun p => decide (byteAt buf p ∈ types)) =
          r :: (backChain buf front r).filter (fun p => decide (byteAt buf p ∈ types))) := by
  intro n
  induction n with
  | zero =>
    intro back hn
    rw [findLastEntryOfTypes.eq_def, backChain.eq_def]
    rw [if_pos (show back + kPreviousLengthOffset < front by
        simp only [kPreviousLengthOffset]; omega),
      if_pos (show back + kPreviousLengthOffset < front by
        simp only [kPreviousLengthOffset]; omega)]
    exact ⟨fun _ => rfl, fun r hr => by simp at hr⟩
  | succ n ih =>
    intro back hn
    rw [findLastEntryOfTypes.eq_def, backChain.eq_def]
    by_cases hc1 : back + kPreviousLengthOffset < front
    · rw [if_pos hc1, if_pos hc1]
      exact ⟨fun _ => rfl, fun r hr => by simp at hr⟩
    rw [if_neg hc1, if_neg hc1]
    dsimp only
    set prev : Int := back - (byteAt buf (back + kPreviousLengthOffset) : Int) - kOverhead
      with hprev
    by_cases hc2 : prev < front
    · rw [if_pos hc2, if_pos hc2]
      exact ⟨fun _ => rfl, fun r hr => by simp at hr⟩
    rw [if_neg hc2, if_neg hc2]
    by_cases hc3 : prev + (byteAt buf (prev + 1) : Int) + kOverhead ≠ back
    · rw [if_pos hc3, if_pos hc3]
      exact ⟨fun _ => rfl, fun r hr => by simp at hr⟩
    rw [if_neg hc3, if_neg hc3]
    have hn2 : (prev - front).toNat ≤ n := by
      have hb0 : (0 : Int) ≤ byteAt buf (prev + 1) := by positivity
      push_neg at hc3
      simp only [kOverhead, kPreviousLengthOffset] at *
      omega
    by_cases hty : byteAt buf prev ∈ types
    · rw [if_pos hty]
      constructor
      · intro h
        simp at h
      · intro r hr
        have hr2 : r = prev := (show prev = r by simpa using hr).symm
        subst hr2
        rw [List.filter_cons_of_pos (by simpa using hty)]
    · rw [if_neg hty]
      rw [List.filter_cons_of_neg (by simpa using hty)]
      exact ih prev hn2

lemma findLast_none_filter (buf : List Nat) (front : Int) (types : List Nat) (back : Int)
    (h : findLastEntryOfTypes buf front types back = none) :
    (backChain buf front back).filter (fun p => decide (byteAt buf p ∈ types)) = [] :=
  (findLast_filter_aux buf front types (back - front).toNat back le_rfl).1 h

lemma findLast_some_filter (buf : List Nat) (front : Int) (types : List Nat) (back : Int)
    (r : Int) (h : findLastEntryOfTypes buf front types back = some r) :
    (backChain buf front back).filter (fun p => decide (byteAt buf p ∈ types)) =
      r :: (backChain buf front r).filter (fun p => decide (byteAt buf p ∈ types)) :=
  (findLast_filter_aux buf front types (back - front).toNat back le_rfl).2 r h

lemma getLast?_match_cons (s : Int) (t : List Int) :
    (match t.getLast? with
     | none => some s
     | some s2 => some s2) = (s :: t).getLast? := by
  match t with
  | [] => simp
  | a :: t2 =>
    rw [List.getLast?_cons_cons]
    cases h : (a :: t2).getLast? with
    | none => simp at h
    | some x => simp

lemma firstStartLoop_eq_aux (buf : List Nat) (front : Int) :
    ∀ (n : Nat) (cur : Int), (cur - front).toNat ≤ n →
      firstStartLoop buf front cur =
        ((backChain buf front cur).filter
          (fun p => decide (byteAt buf p ∈ startingTypesL))).getLast? := by
  intro n
  induction n with
  | zero =>
    intro cur hn
    rw [firstStartLoop.eq_def]
    cases hf : findLastEntryOfTypes buf front startingTypesL cur with
    | none =>
      rw [findLast_none_filter buf front startingTypesL cur hf]
      rfl
    | some s =>
      have hfl := findLast_some_filter buf front startingTypesL cur s hf
      have hs : s ∈ backChain buf front cur := by
        have : s ∈ (backChain buf front cur).filter
            (fun p => decide (byteAt buf p ∈ startingTypesL)) := by
          rw [hfl]
          simp
        exact List.mem_of_mem_filter this
      have hb := backChain_bounds buf front cur s hs
      simp only [kOverhead] at hb
      omega
  | succ n ih =>
    intro cur hn
    rw [firstStartLoop.eq_def]
    cases hf : findLastEntryOfTypes buf front startingTypesL cur with
    | none =>
      rw [findLast_none_filter buf front startingTypesL cur hf]
      rfl
    | some s =>
      have hfl := findLast_some_filter buf front startingTypesL cur s hf
      have hs : s ∈ backChain buf front cur := by
        have : s ∈ (backChain buf front cur).filter
            (fun p => decide (byteAt buf p ∈ startingTypesL)) := by
          rw [hfl]
          simp
        exact List.mem_of_mem_filter this
      have hb := backChain_bounds buf front cur s hs
      simp only [kOverhead] at hb
      dsimp only
      rw [dif_pos ⟨hb.1, by omega, by omega⟩]
      rw [ih s (by omega), hfl]
      exact getLast?_match_cons s _

lemma firstStartLoop_eq (buf : List Nat) (front cur : Int) :
    firstStartLoop buf front cur =
      ((backChain buf front cur).filter
        (fun p => decide (byteAt buf p ∈ startingTypesL))).getLast? :=
  firstStartLoop_eq_aux buf front (cur - front).toNat cur le_rfl

lemma getLast?_min_of_pairwise (l : List Int) (hl : l.Pairwise (fun a b => b < a)) :
    ∀ b, l.getLast? = some b → ∀ p ∈ l, b ≤ p := by
  induction l with
  | nil =>
    intro b hb
    simp at hb
  | cons a t ih =>
    intro b hb p hp
    match t with
    | [] =>
      simp at hb hp
      omega
    | c :: t2 =>
      rw [List.getLast?_cons_cons] at hb
      have hmin := ih (List.Pairwise.sublist (List.sublist_cons_self a _) hl) b hb
      rcases List.mem_cons.1 hp with h | h
      · subst h
        have hbmem := List.mem_of_getLast?_eq_some hb
        have := List.rel_of_pairwise_cons hl hbmem
        omega
      · exact hmin p h

lemma backChain_pairwise (buf : List Nat) (front back : Int) :
    (backChain buf front back).Pairwise (fun a b => b < a) :=
  backChain_pairwise_aux buf front (back - front).toNat back le_rfl

/-- C3.  `findLastEntryOfTypes(front, back, types)` returns not-found as
soon as the computed previous-frame start
`prev = back - back[kPreviousLengthOffset] - kOverhead` either lies before
`front` or does not satisfy `prev + prev[length] + kOverhead = back`
(trailing length equals leading length and the frames abut); and any frame
it does return lies on the consistent backward chain from `back`, so it is
never reached through a violating step. -/
theorem C3_scan_abort (buf : List Nat) (front back : Int) (types : List Nat) :
    (¬ back + kPreviousLengthOffset < front →
      (back - (byteAt buf (back + kPreviousLengthOffset) : Int) - kOverhead < front ∨
       back - (byteAt buf (back + kPreviousLengthOffset) : Int) - kOverhead +
         (byteAt buf (back - (byteAt buf (back + kPreviousLengthOffset) : Int) -
           kOverhead + 1) : Int) + kOverhead ≠ back) →
      findLastEntryOfTypes buf front types back = none) ∧
    (∀ r, findLastEntryOfTypes buf front types back = some r →
      r ∈ backChain buf front back) := by
  constructor
  · intro h1 h2
    rw [findLastEntryOfTypes.eq_def, if_neg h1]
    dsimp only
    by_cases hp : back - (byteAt buf (back + kPreviousLengthOffset) : Int) - kOverhead < front
    · rw [if_pos hp]
    · rw [if_neg hp]
      rcases h2 with h | h
      · exact absurd h hp
      · rw [if_pos h]
  · intro r hr
    have hfl := findLast_some_filter buf front types back r hr
    have hmem : r ∈ (backChain buf front back).filter
        (fun p => decide (byteAt buf p ∈ types)) := by
      rw [hfl]
      simp
    exact List.mem_of_mem_filter hmem

/-- C3 witness: a buffer whose final trailing-length byte (5) points before
the front, so the very first backward step aborts the scan. -/
theorem C3_witness : findLastEntryOfTypes [9, 0, 5] 0 [9] 3 = none :=
  (C3_scan_abort [9, 0, 5] 0 3 [9]).1 (by decide) (by decide)

/-- C2.  For every byte buffer, if the backward scan from the buffer end
finds no frame whose type is in the ending set
`{END_FMT, HISTOGRAM_ENTRY_TS, HISTOGRAM_FLUSH}` along the consistent
backward chain, the snapshot is empty (`begin = end = front = 0`);
otherwise `end` is set just past the last such ending frame, and `begin` is
set to the earliest frame of a starting type
`{START_FMT, HISTOGRAM_ENTRY_TS}` still reachable by consistent backward
iteration from `end`, or `begin = end` if no such frame exists. -/
theorem C2_snapshot_trim (buf : List Nat) :
    (((backChain buf 0 (buf.length : Int)).filter
        (fun p => decide (byteAt buf p ∈ endingTypesL))) = [] →
      snapshotTrim buf = (0, 0)) ∧
    (∀ lastEnd,
      ((backChain buf 0 (buf.length : Int)).filter
          (fun p => decide (byteAt buf p ∈ endingTypesL))).head? = some lastEnd →
      (snapshotTrim buf).2 = iterNext buf lastEnd ∧
      byteAt buf lastEnd ∈ endingTypesL ∧
      (∀ q ∈ backChain buf 0 (buf.length : Int),
        byteAt buf q ∈ endingTypesL → q ≤ lastEnd) ∧
      (((backChain buf 0 (iterNext buf lastEnd)).filter
          (fun p => decide (byteAt buf p ∈ startingTypesL))) = [] →
        (snapshotTrim buf).1 = (snapshotTrim buf).2) ∧
      (∀ b, ((backChain buf 0 (iterNext buf lastEnd)).filter
            (fun p => decide (byteAt buf p ∈ startingTypesL))).getLast? = some b →
        (snapshotTrim buf).1 = b ∧
        b ∈ backChain buf 0 (iterNext buf lastEnd) ∧
        byteAt buf b ∈ startingTypesL ∧
        ∀ p ∈ backChain buf 0 (iterNext buf lastEnd),
          byteAt buf p ∈ startingTypesL → b ≤ p)) := by
  constructor
  · intro hempty
    cases hf : findLastEntryOfTypes buf 0 endingTypesL (buf.length : Int) with
    | none =>
      unfold snapshotTrim
      rw [hf]
    | some r =>
      exfalso
      have hfl := findLast_some_filter buf 0 endingTypesL _ r hf
      rw [hempty] at hfl
      simp at hfl
  · intro lastEnd hhead
    have hf : findLastEntryOfTypes buf 0 endingTypesL (buf.length : Int) = some lastEnd := by
      cases hf2 : findLastEntryOfTypes buf 0 endingTypesL (buf.length : Int) with
      | none =>
        rw [findLast_none_filter buf 0 endingTypesL _ hf2] at hhead
        simp at hhead
      | some r =>
        have hfl := findLast_some_filter buf 0 endingTypesL _ r hf2
        rw [hfl] at hhead
        simp only [List.head?_cons, Option.some.injEq] at hhead
        rw [hhead]
    have hfl := findLast_some_filter buf 0 endingTypesL _ lastEnd hf
    have hmemEnd : lastEnd ∈ (backChain buf 0 (buf.length : Int)).filter
        (fun p => decide (byteAt buf p ∈ endingTypesL)) := by
      rw [hfl]
      simp
    have htyEnd : byteAt buf lastEnd ∈ endingTypesL := by
      have := List.of_mem_filter hmemEnd
      simpa using this
    have hmax : ∀ q ∈ backChain buf 0 (buf.length : Int),
        byteAt buf q ∈ endingTypesL → q ≤ lastEnd := by
      intro q hq hqty
      have hqf : q ∈ (backChain buf 0 (buf.length : Int)).filter
          (fun p => decide (byteAt buf p ∈ endingTypesL)) :=
        List.mem_filter.2 ⟨hq, by simpa using hqty⟩
      rw [hfl] at hqf
      rcases List.mem_cons.1 hqf with h | h
      · omega
      · have hb := backChain_bounds buf 0 lastEnd q (List.mem_of_mem_filter h)
        simp only [kOverhead] at hb
        omega
    have hfsl := firstStartLoop_eq buf 0 (iterNext buf lastEnd)
    cases hss : ((backChain buf 0 (iterNext buf lastEnd)).filter
        (fun p => decide (byteAt buf p ∈ startingTypesL))).getLast? with
    | none =>
      have htrim : snapshotTrim buf = (iterNext buf lastEnd, iterNext buf lastEnd) := by
        unfold snapshotTrim
        rw [hf]
        dsimp only
        rw [hfsl, hss]
      refine ⟨by rw [htrim], htyEnd, hmax, fun _ => by rw [htrim], ?_⟩
      intro b hb
      simp at hb
    | some b =>
      have htrim : snapshotTrim buf = (b, iterNext buf lastEnd) := by
        unfold snapshotTrim
        rw [hf]
        dsimp only
        rw [hfsl, hss]
      refine ⟨by rw [htrim], htyEnd, hmax, ?_, ?_⟩
      · intro hemp
        rw [hemp] at hss
        simp at hss
      · intro b2 hb2
        have hbb : b2 = b := by
          have := hb2.symm
          injection this
        subst hbb
        have hbmem : b2 ∈ (backChain buf 0 (iterNext buf lastEnd)).filter
            (fun p => decide (byteAt buf p ∈ startingTypesL)) :=
          List.mem_of_getLast?_eq_some hss
        have hpw : ((backChain buf 0 (iterNext buf lastEnd)).filter
            (fun p => decide (byteAt buf p ∈ startingTypesL))).Pairwise
            (fun a b => b < a) :=
          List.Pairwise.sublist (List.filter_sublist _)
            (backChain_pairwise buf 0 (iterNext buf lastEnd))
        refine ⟨by rw [htrim], List.mem_of_mem_filter hbmem, ?_, ?_⟩
        · have := List.of_mem_filter hbmem
          simpa using this
        · intro p hp hpty
          have hpf : p ∈ (backChain buf 0 (iterNext buf lastEnd)).filter
              (fun q => decide (byteAt buf q ∈ startingTypesL)) :=
            List.mem_filter.2 ⟨hp, by simpa using hpty⟩
          exact getLast?_min_of_pairwise _ hpw b2 hss p hpf

/-- C2 witness: a buffer holding one complete `END_FMT` frame.  The chain
from the end finds the ending frame at offset 0, `end` is set just past it
(offset 3), and since no starting-type frame is reachable, `begin = end`. -/
theorem C2_witness : snapshotTrim [9, 0, 0] = (3, 3) := by
  have hchain3 : backChain [9, 0, 0] 0 3 = [0] := by
    rw [backChain.eq_def, if_neg (by decide)]
    dsimp only
    rw [if_neg (by decide), if_neg (by decide)]
    rw [show (3 : Int) - (byteAt [9, 0, 0] (3 + kPreviousLengthOffset) : Int) -
        (kOverhead : Int) = 0 from by decide]
    rw [backChain.eq_def, if_pos (by decide)]
  have hnext : iterNext [9, 0, 0] 0 = 3 := by decide
  have h := (C2_snapshot_trim [9, 0, 0]).2 0 (by
    rw [show (([9, 0, 0] : List Nat).length : Int) = 3 from by decide, hchain3]
    decide)
  have hempty : ((backChain [9, 0, 0] 0 (iterNext [9, 0, 0] 0)).filter
      (fun p => decide (byteAt [9, 0, 0] p ∈ startingTypesL))) = [] := by
    rw [hnext, hchain3]
    decide
  have h2 := h.2.2.2.1 hempty
  have h1 := h.1
  have e2 : (snapshotTrim [9, 0, 0]).2 = 3 := h1.trans hnext
  have e1 : (snapshotTrim [9, 0, 0]).1 = 3 := h2.trans e2
  have hpair : snapshotTrim [9, 0, 0] =
      ((snapshotTrim [9, 0, 0]).1, (snapshotTrim [9, 0, 0]).2) := rfl
  rw [hpair, e1, e2]

/-! ### C4: the merge is timestamp-ordered with index tie-break -/

lemma timespecGt_false_iff (a b : Timespec) :
    timespecGt a b = false ↔ (a.sec < b.sec ∨ (a.sec = b.sec ∧ a.nsec ≤ b.nsec)) := by
  simp only [timespecGt, Bool.or_eq_false_iff, Bool.and_eq_false_iff, decide_eq_false_iff_not,
    not_lt, beq_eq_false_iff_ne, ne_eq, gt_iff_lt]
  constructor
  · intro ⟨h1, h2⟩
    rcases h2 with h | h
    · omega
    · omega
  · intro h
    omega

lemma mergeItemGt_true_iff (a b : Timespec × Nat) :
    mergeItemGt a b = true ↔
      (b.1.sec < a.1.sec ∨ (b.1.sec = a.1.sec ∧ b.1.nsec < a.1.nsec) ∨
       (b.1.sec = a.1.sec ∧ b.1.nsec = a.1.nsec ∧ b.2 < a.2)) := by
  simp only [mergeItemGt, timespecGt, Bool.or_eq_true, Bool.and_eq_true, decide_eq_true_eq,
    beq_iff_eq, gt_iff_lt]
  omega

lemma mergeItemGt_false_iff (a b : Timespec × Nat) :
    mergeItemGt a b = false ↔
      (a.1.sec < b.1.sec ∨ (a.1.sec = b.1.sec ∧ a.1.nsec < b.1.nsec) ∨
       (a.1.sec = b.1.sec ∧ a.1.nsec = b.1.nsec ∧ a.2 ≤ b.2)) := by
  rw [Bool.eq_false_iff, Ne, mergeItemGt_true_iff]
  omega

lemma mergeItemGt_irrefl (a : Timespec × Nat) : mergeItemGt a a = false := by
  rw [mergeItemGt_false_iff]
  omega

lemma mergeItemGt_false_trans {a b c : Timespec × Nat} (h1 : mergeItemGt a b = false)
    (h2 : mergeItemGt b c = false) : mergeItemGt a c = false := by
  rw [mergeItemGt_false_iff] at *
  omega

lemma mergeItemGt_false_of_gt_of_false {a b c : Timespec × Nat}
    (h1 : mergeItemGt b a = true) (h2 : mergeItemGt a c = false) :
    mergeItemGt a c = false := h2

lemma heapTop_go_spec :
    ∀ (l : List (Timespec × Nat)) (b : Timespec × Nat),
      ∃ m, l.foldl
          (fun best c =>
            match best with
            | none => some c
            | some b2 => if mergeItemGt b2 c then some c else some b2)
          (some b) = some m ∧
        (m = b ∨ m ∈ l) ∧ mergeItemGt m b = false ∧ ∀ c ∈ l, mergeItemGt m c = false := by
  intro l
  induction l with
  | nil =>
    intro b
    exact ⟨b, rfl, Or.inl rfl, mergeItemGt_irrefl b, by simp⟩
  | cons c l ih =>
    intro b
    by_cases hbc : mergeItemGt b c = true
    · obtain ⟨m, hm, hmem, hmb, hall⟩ := ih c
      refine ⟨m, ?_, ?_, ?_, ?_⟩
      · simpa [List.foldl_cons, hbc] using hm
      · rcases hmem with h | h
        · exact Or.inr (h ▸ List.mem_cons_self c l)
        · exact Or.inr (List.mem_cons_of_mem c h)
      · by_cases hmb2 : mergeItemGt m b = true
        · exfalso
          have h3 : mergeItemGt m c = true := by
            rw [mergeItemGt_true_iff] at hmb2 hbc ⊢
            omega
          rw [h3] at hmb
          simp at hmb
        · simpa using hmb2
      · intro d hd
        rcases List.mem_cons.1 hd with h | h
        · subst h
          exact hmb
        · exact hall d h
    · have hbc2 : mergeItemGt b c = false := by simpa using hbc
      obtain ⟨m, hm, hmem, hmb, hall⟩ := ih b
      refine ⟨m, ?_, ?_, hmb, ?_⟩
      · simpa [List.foldl_cons, hbc] using hm
      · rcases hmem with h | h
        · exact Or.inl h
        · exact Or.inr (List.mem_cons_of_mem c h)
      · intro d hd
        rcases List.mem_cons.1 hd with h | h
        · subst h
          exact mergeItemGt_false_trans hmb hbc2
        · exact hall d h

lemma heapTop_spec (l : List (Timespec × Nat)) (m : Timespec × Nat)
    (h : heapTop l = some m) : m ∈ l ∧ ∀ c ∈ l, mergeItemGt m c = false := by
  match l with
  | [] => simp [heapTop] at h
  | b :: l2 =>
    obtain ⟨m2, hm2, hmem, hmb, hall⟩ := heapTop_go_spec l2 b
    have : heapTop (b :: l2) = some m2 := by
      simpa [heapTop, List.foldl_cons] using hm2
    rw [this] at h
    obtain rfl : m2 = m := by injection h
    refine ⟨?_, ?_⟩
    · rcases hmem with h2 | h2
      · exact h2 ▸ List.mem_cons_self b l2
      · exact List.mem_cons_of_mem b h2
    · intro c hc
      rcases List.mem_cons.1 hc with h2 | h2
      · exact h2 ▸ hmb
      · exact hall c h2

lemma currentItems_mem_iff (streams : List (List Timespec)) (ts : Timespec) (i : Nat) :
    (ts, i) ∈ currentItems streams ↔
      ∃ s, streams[i]? = some s ∧ s.head? = some ts := by
  unfold currentItems
  rw [List.mem_filterMap]
  constructor
  · rintro ⟨⟨j, s⟩, hmem, hmap⟩
    rw [List.mem_enum_iff_getElem?] at hmem
    simp only [Option.map_eq_some'] at hmap
    obtain ⟨ts2, hh, heq⟩ := hmap
    have hj : j = i := congrArg Prod.snd heq
    have hts : ts2 = ts := congrArg Prod.fst heq
    subst hj
    subst hts
    exact ⟨s, hmem, hh⟩
  · rintro ⟨s, hs, hh⟩
    refine ⟨(i, s), ?_, ?_⟩
    · rw [List.mem_enum_iff_getElem?]
      exact hs
    · simp [hh]

lemma getD_set_tail_subset (streams : List (List Timespec)) (i j : Nat) :
    ∀ x ∈ (streams.set i (streams.getD i []).tail).getD j [], x ∈ streams.getD j [] := by
  intro x hx
  by_cases hij : i = j
  · subst hij
    by_cases hlen : i < streams.length
    · rw [List.getD_eq_getElem?_getD, List.getElem?_set_self hlen] at hx
      simp only [Option.getD_some] at hx
      exact List.tail_subset _ (by
        rwa [List.getD_eq_getElem?_getD] at hx ⊢)
    · rw [List.getD_eq_getElem?_getD, List.getElem?_eq_none (by rw [List.length_set]; omega)]
        at hx
      simp at hx
  · rwa [List.getD_eq_getElem?_getD, List.getElem?_set_ne hij,
      ← List.getD_eq_getElem?_getD] at hx

lemma mergeAux_mem :
    ∀ (fuel : Nat) (streams : List (List Timespec)) (ts : Timespec) (i : Nat),
      (ts, i) ∈ mergeAux fuel streams → ts ∈ streams.getD i [] := by
  intro fuel
  induction fuel with
  | zero =>
    intro streams ts i h
    simp [mergeAux] at h
  | succ fuel ih =>
    intro streams ts i h
    rw [show mergeAux (fuel + 1) streams =
        (match heapTop (currentItems streams) with
         | none => []
         | some (ts, i) => (ts, i) :: mergeAux fuel (streams.set i (streams.getD i []).tail))
      from rfl] at h
    cases htop : heapTop (currentItems streams) with
    | none =>
      rw [htop] at h
      simp at h
    | some m =>
      rw [htop] at h
      obtain ⟨ts0, i0⟩ := m
      simp only [List.mem_cons] at h
      rcases h with h | h
      · have hmem := (heapTop_spec _ _ htop).1
        rw [currentItems_mem_iff] at hmem
        obtain ⟨s, hs, hh⟩ := hmem
        have h1 : ts = ts0 := congrArg Prod.fst h
        have h2 : i = i0 := congrArg Prod.snd h
        subst h1
        subst h2
        rw [List.getD_eq_getElem?_getD, hs]
        simp only [Option.getD_some]
        obtain ⟨ys, hys⟩ := List.head?_eq_some_iff.1 hh
        rw [hys]
        exact List.mem_cons_self ts ys
      · exact getD_set_tail_subset streams i0 i ts (ih _ ts i h)

lemma heapTop_lower_bound (streams : List (List Timespec))
    (hs : ∀ s ∈ streams, s.Pairwise (fun a b => timespecGt a b = false))
    (m : Timespec × Nat) (hm : heapTop (currentItems streams) = some m) :
    ∀ (j : Nat) (ts2 : Timespec), ts2 ∈ streams.getD j [] →
      timespecGt m.1 ts2 = false ∧ (m.1 = ts2 → m.2 ≤ j) := by
  intro j ts2 hts2
  match hsj : streams.getD j [] with
  | [] =>
    rw [hsj] at hts2
    simp at hts2
  | h :: t =>
    have hget : streams[j]? = some (h :: t) := by
      rw [List.getD_eq_getElem?_getD] at hsj
      cases hge : streams[j]? with
      | none =>
        rw [hge] at hsj
        simp at hsj
      | some s =>
        rw [hge] at hsj
        simp only [Option.getD_some] at hsj
        rw [hsj]
    have hhead : (h, j) ∈ currentItems streams := by
      rw [currentItems_mem_iff]
      exact ⟨h :: t, hget, rfl⟩
    have hGt := (heapTop_spec _ _ hm).2 (h, j) hhead
    have hmemstream : (h :: t) ∈ streams := List.getElem?_mem hget
    have hsorted := hs _ hmemstream
    rw [hsj] at hts2
    have hle : timespecGt h ts2 = false ∨ h = ts2 := by
      rcases List.mem_cons.1 hts2 with h2 | h2
      · exact Or.inr h2.symm
      · exact Or.inl (List.rel_of_pairwise_cons hsorted h2)
    rw [mergeItemGt_false_iff] at hGt
    constructor
    · rw [timespecGt_false_iff]
      rcases hle with h2 | h2
      · rw [timespecGt_false_iff] at h2
        simp only at hGt ⊢
        omega
      · subst h2
        simp only at hGt ⊢
        omega
    · intro heq
      have he1 : m.1.sec = ts2.sec := congrArg Timespec.sec heq
      have he2 : m.1.nsec = ts2.nsec := congrArg Timespec.nsec heq
      rcases hle with h2 | h2
      · rw [timespecGt_false_iff] at h2
        simp only at hGt
        omega
      · subst h2
        simp only at hGt
        omega

lemma mergeAux_pairwise :
    ∀ (fuel : Nat) (streams : List (List Timespec)),
      (∀ s ∈ streams, s.Pairwise (fun a b => timespecGt a b = false)) →
      (mergeAux fuel streams).Pairwise
        (fun a b => timespecGt a.1 b.1 = false ∧ (a.1 = b.1 → a.2 ≤ b.2)) := by
  intro fuel
  induction fuel with
  | zero =>
    intro streams hs
    exact List.Pairwise.nil
  | succ fuel ih =>
    intro streams hs
    rw [show mergeAux (fuel + 1) streams =
        (match heapTop (currentItems streams) with
         | none => []
         | some (ts, i) => (ts, i) :: mergeAux fuel (streams.set i (streams.getD i []).tail))
      from rfl]
    cases htop : heapTop (currentItems streams) with
    | none => exact List.Pairwise.nil
    | some m =>
      obtain ⟨ts0, i0⟩ := m
      dsimp only
      have hs2 : ∀ s ∈ streams.set i0 (streams.getD i0 []).tail,
          s.Pairwise (fun a b => timespecGt a b = false) := by
        intro s hmem
        rcases List.mem_or_eq_of_mem_set hmem with h | h
        · exact hs s h
        · subst h
          match hsi : streams.getD i0 [] with
          | [] => exact List.Pairwise.nil
          | c :: t =>
            have hmem2 : (c :: t) ∈ streams := by
              rw [List.getD_eq_getElem?_getD] at hsi
              cases hge : streams[i0]? with
              | none => rw [hge] at hsi; simp at hsi
              | some s2 =>
                rw [hge] at hsi
                simp only [Option.getD_some] at hsi
                subst hsi
                exact List.getElem?_mem hge
            have := hs _ hmem2
            rw [List.pairwise_cons] at this
            exact this.2
      refine List.Pairwise.cons ?_ (ih _ hs2)
      intro b hb
      obtain ⟨tsb, jb⟩ := b
      have hmemb := mergeAux_mem fuel _ tsb jb hb
      have hmemb2 : tsb ∈ streams.getD jb [] :=
        getD_set_tail_subset streams i0 jb tsb hmemb
      exact heapTop_lower_bound streams hs (ts0, i0) htop jb tsb hmemb2

/-- C4.  For every merge pass over well-formed input snapshots (each with
monotonically non-decreasing record timestamps), the sequence of records
written to the merged FIFO has monotonically non-decreasing timestamps, and
any two records with equal timestamps appear ordered by their source stream
index ascending. -/
theorem C4_merge_order (streams : List (List Timespec))
    (hs : ∀ s ∈ streams, s.Pairwise (fun a b => timespecGt a b = false)) :
    (Merger.merge streams).Pairwise
      (fun a b => timespecGt a.1 b.1 = false ∧ (a.1 = b.1 → a.2 ≤ b.2)) :=
  mergeAux_pairwise _ streams hs

/-- C4 witness: stream 0 has records at times 1.000000000 and 2.0, stream 1
has one at 0.999999999 and one at 2.0; the merge emits 0.999999999 first,
then the two 2.0 records with stream 0 before stream 1. -/
theorem C4_witness :
    (∀ s ∈ [[Timespec.mk 1 0, Timespec.mk 2 0], [Timespec.mk 0 999999999, Timespec.mk 2 0]],
      s.Pairwise (fun a b => timespecGt a b = false)) ∧
    (Merger.merge [[Timespec.mk 1 0, Timespec.mk 2 0],
        [Timespec.mk 0 999999999, Timespec.mk 2 0]]).Pairwise
      (fun a b => timespecGt a.1 b.1 = false ∧ (a.1 = b.1 → a.2 ≤ b.2)) :=
  ⟨by decide, C4_merge_order _ (by decide)⟩

end NBLog
